import Mathlib

/-!
Verification development for the vtna frontend (src/frontend/main.py).

This file gives a shallow embedding of the parts of the frontend that the
claims are about: the attribute-query boolean-expression builder
(build_predicate, build_clause, transform_queries_to_filter,
transform_queries_to_color_mapping), the query-manager state machine, the
granularity update handler, the graph-upload handler, the node-measures
manager and the video exporter.

Python dictionaries keyed by integers are embedded as association lists
together with insertion-ordered update/pop operations (dictSet, dictPop),
and Python's sorted(...) on dict items is embedded as a stable insertion
sort on the key (pySorted).

The external vtna analysis library (vtna.filter, vtna.graph,
vtna.node_measure, vtna.data_import) is not part of this repository; the
pieces of it that the frontend composes are modelled from the spec, which
describes them as "an externally supplied filter abstraction" over node
attributes.  Numeric (interval) attribute values are embedded as integers:
the claims are order-theoretic and do not depend on the value domain.
-/

/-- A node attribute value: the frontend assumes string-typed values, the
interval slider supplies numbers. -/
inductive Value where
  | str (s : String)
  | int (n : Int)
deriving DecidableEq

/-- The value slot of a raw predicate, as supplied by the query widgets:
a pair of category names (ordinal range slider), a pair of numbers
(interval range slider), a single category name (nominal dropdown) or a
single node id (ID text field). -/
inductive RawValue where
  | str (s : String)
  | int (n : Int)
  | strPair (lo hi : String)
  | intPair (lo hi : Int)
deriving DecidableEq

/-- One entry of a clause dictionary: an operator string and a
(attribute name, raw value) pair. -/
structure RawPredicate where
  operator : String
  value : String × RawValue
deriving DecidableEq

/-- One entry of the attribute_info dictionary: a measurement type
("O", "I", "N" or "ID") and, for ordinal attributes, the category order. -/
structure AttrInfo where
  measurement_type : String
  categories : List String
deriving DecidableEq

/-- Modelled from the spec: a node of the external temporal graph, carrying
an id and attribute values. -/
structure TemporalNode where
  id : Int
  attrs : String → Value

/-- Modelled from the spec: the external temporal graph; only get_nodes()
is used by the code under verification. -/
structure TemporalGraph where
  nodes : List TemporalNode

/-- Modelled from the spec: vtna.filter.NodeFilter, "an externally supplied
filter abstraction" wrapping a boolean predicate on temporal nodes. -/
structure NodeFilter where
  pred : TemporalNode → Bool

/-- Modelled from the spec: NodeFilter negation (Python unary minus). -/
def NodeFilter.neg (f : NodeFilter) : NodeFilter := ⟨fun n => !f.pred n⟩

/-- Modelled from the spec: NodeFilter conjunction (Python `*`). -/
def NodeFilter.mul (f g : NodeFilter) : NodeFilter := ⟨fun n => f.pred n && g.pred n⟩

/-- Modelled from the spec: NodeFilter disjunction / filter sum (Python `+`). -/
def NodeFilter.add (f g : NodeFilter) : NodeFilter := ⟨fun n => f.pred n || g.pred n⟩

/-- Modelled from the spec: calling a NodeFilter on a node list keeps the
nodes satisfying the predicate. -/
def NodeFilter.apply (f : NodeFilter) (nodes : List TemporalNode) : List TemporalNode :=
  nodes.filter f.pred

/-- The filter NodeFilter(lambda _: True) used for the empty query dict. -/
def trueNodeFilter : NodeFilter := ⟨fun _ => true⟩

/- ### Python dict / sorted embedding -/

section PyDict

variable {κ α : Type} [DecidableEq κ]

/-- Python dict lookup d[k] (None on a missing key is reported by the
caller as a KeyError). -/
def dictGet? : List (κ × α) → κ → Option α
  | [], _ => none
  | p :: rest, k => if p.1 = k then some p.2 else dictGet? rest k

/-- Python dict assignment d[k] = v: replace in place when the key exists,
append otherwise (insertion order is preserved). -/
def dictSet : List (κ × α) → κ → α → List (κ × α)
  | [], k, v => [(k, v)]
  | p :: rest, k, v => if p.1 = k then (k, v) :: rest else p :: dictSet rest k v

/-- Python dict d.pop(k): remove the (first) entry with the given key. -/
def dictPop : List (κ × α) → κ → List (κ × α)
  | [], _ => []
  | p :: rest, k => if p.1 = k then rest else p :: dictPop rest k

/-- The keys of an embedded dict, in insertion order. -/
def dictKeys (d : List (κ × α)) : List κ := d.map Prod.fst

end PyDict

/-- One insertion step of the stable insertion sort on Nat keys. -/
def insertByKey {α : Type} (x : Nat × α) : List (Nat × α) → List (Nat × α)
  | [] => [x]
  | y :: ys => if x.1 ≤ y.1 then x :: y :: ys else y :: insertByKey x ys

/-- Python sorted(d.items(), key=lambda t: int(t[0])): a stable sort of the
entries by ascending numeric key. -/
def pySorted {α : Type} (l : List (Nat × α)) : List (Nat × α) :=
  l.foldr insertByKey []

/-- The entry of minimal key (Python min(d.keys(), key=int) plus lookup). -/
def minEntry {α : Type} : List (Nat × α) → Option (Nat × α)
  | [] => none
  | p :: rest =>
    match minEntry rest with
    | none => some p
    | some q => if p.1 ≤ q.1 then some p else some q

/-- Python max(d.keys(), key=int); max() raises on an empty dict, the 0
default is never used on the non-empty dicts the frontend reaches. -/
def maxKey {α : Type} (l : List (Nat × α)) : Nat :=
  l.foldl (fun m p => max m p.1) 0

/- ### vtna.filter attribute predicates (modelled from the spec) -/

/-- Modelled from the spec: vtna.filter.ordinal_attribute_greater_than_equal;
the node's attribute is at or above the given category in the
ascending category order. -/
def ordinal_attribute_greater_than_equal (name : String) (v : String)
    (order : List String) : TemporalNode → Bool :=
  fun n =>
    match n.attrs name with
    | .str s => decide (order.indexOf v ≤ order.indexOf s)
    | .int _ => false

/-- Modelled from the spec: vtna.filter.ordinal_attribute_greater_than;
the node's attribute is strictly above the given category. -/
def ordinal_attribute_greater_than (name : String) (v : String)
    (order : List String) : TemporalNode → Bool :=
  fun n =>
    match n.attrs name with
    | .str s => decide (order.indexOf v < order.indexOf s)
    | .int _ => false

/-- Modelled from the spec: vtna.filter.interval_attribute_greater_than_equal. -/
def interval_attribute_greater_than_equal (name : String) (v : Int) :
    TemporalNode → Bool :=
  fun n =>
    match n.attrs name with
    | .int x => decide (v ≤ x)
    | .str _ => false

/-- Modelled from the spec: vtna.filter.interval_attribute_greater_than. -/
def interval_attribute_greater_than (name : String) (v : Int) :
    TemporalNode → Bool :=
  fun n =>
    match n.attrs name with
    | .int x => decide (v < x)
    | .str _ => false

/-- Modelled from the spec: vtna.filter.categorical_attribute_equal; Python
equality between the attribute value and the supplied value (values of
different shapes compare unequal). -/
def categorical_attribute_equal (name : String) (v : RawValue) :
    TemporalNode → Bool :=
  fun n =>
    match n.attrs name, v with
    | .str s, .str t => s == t
    | .int a, .int b => a == b
    | _, _ => false

/-- The exceptions the query builder can raise: a missing dict key, a
Python TypeError (e.g. indexing a non-pair value, combining with None),
and the two explicit `raise Exception(...)` sites. -/
inductive BuildError where
  | keyError (k : String)
  | typeError
  | unknownCombinator (op : String)
  | unknownMeasurementType (t : String)
deriving DecidableEq

/-- build_predicate of main.py: dispatch on the attribute's measurement
type; ordinal and interval ranges are lower_bound AND NOT inv_upper_bound,
nominal is equality, ID compares the node id; any other measurement type
raises. -/
def build_predicate (rp : RawPredicate) (attribute_info : List (String × AttrInfo)) :
    Except BuildError (TemporalNode → Bool) :=
  let name := rp.value.1
  match dictGet? attribute_info name with
  | none => .error (.keyError name)
  | some ai =>
    if ai.measurement_type = "O" then
      match rp.value.2 with
      | .strPair lo hi =>
        let order := ai.categories
        let lower_bound := ordinal_attribute_greater_than_equal name lo order
        let inv_upper_bound := ordinal_attribute_greater_than name hi order
        .ok (fun n => lower_bound n && !inv_upper_bound n)
      | _ => .error .typeError
    else if ai.measurement_type = "I" then
      match rp.value.2 with
      | .intPair lo hi =>
        let lower_bound := interval_attribute_greater_than_equal name lo
        let inv_upper_bound := interval_attribute_greater_than name hi
        .ok (fun n => lower_bound n && !inv_upper_bound n)
      | _ => .error .typeError
    else if ai.measurement_type = "N" then
      .ok (categorical_attribute_equal name rp.value.2)
    else if ai.measurement_type = "ID" then
      .ok (fun n =>
        match rp.value.2 with
        | .int i => n.id == i
        | _ => false)
    else
      .error (.unknownMeasurementType ai.measurement_type)

/-- The operator case distinction inside the build_clause loop.  A leading
AND/OR with no accumulated filter is Python's `None * filter` /
`None + filter`, a TypeError. -/
def applyCombinator (clause : Option NodeFilter) (op : String)
    (node_filter : NodeFilter) : Except BuildError (Option NodeFilter) :=
  if op = "NEW" then .ok (some node_filter)
  else if op = "NOT" then .ok (some node_filter.neg)
  else if op = "AND" then
    match clause with
    | some c => .ok (some (c.mul node_filter))
    | none => .error .typeError
  else if op = "OR" then
    match clause with
    | some c => .ok (some (c.add node_filter))
    | none => .error .typeError
  else if op = "AND NOT" then
    match clause with
    | some c => .ok (some (c.mul node_filter.neg))
    | none => .error .typeError
  else if op = "OR NOT" then
    match clause with
    | some c => .ok (some (c.add node_filter.neg))
    | none => .error .typeError
  else .error (.unknownCombinator op)

/-- The loop body of build_clause: at each entry build the predicate (its
exceptions propagate), wrap it in a NodeFilter and combine it with the
accumulated clause according to the operator. -/
def buildFoldE (attribute_info : List (String × AttrInfo)) :
    Option NodeFilter → List (Nat × RawPredicate) → Except BuildError (Option NodeFilter)
  | clause, [] => .ok clause
  | clause, t :: rest =>
    match build_predicate t.2 attribute_info with
    | .error e => .error e
    | .ok predicate =>
      match applyCombinator clause t.2.operator ⟨predicate⟩ with
      | .error e => .error e
      | .ok clause' => buildFoldE attribute_info clause' rest

/-- build_clause of main.py: fold over the clause entries in ascending
numeric key order, starting from clause = None. -/
def build_clause (raw_clause : List (Nat × RawPredicate))
    (attribute_info : List (String × AttrInfo)) :
    Except BuildError (Option NodeFilter) :=
  buildFoldE attribute_info none (pySorted raw_clause)

/- ### Query transforms -/

/-- A stored query: a highlight color and a clause dictionary. -/
structure Query where
  color : String
  clauses : List (Nat × RawPredicate)
deriving DecidableEq

/-- The first loop of transform_queries_to_filter: build the clause filter
of each query, in the given order. -/
def buildClausesE (attribute_info : List (String × AttrInfo)) :
    List (Nat × Query) → Except BuildError (List (Option NodeFilter))
  | [] => .ok []
  | t :: rest =>
    match build_clause t.2.clauses attribute_info with
    | .error e => .error e
    | .ok c =>
      match buildClausesE attribute_info rest with
      | .error e => .error e
      | .ok cs => .ok (c :: cs)

/-- The `result_filter += clause` loop of transform_queries_to_filter;
Python raises a TypeError as soon as a None meets the sum. -/
def sumClauses : Option NodeFilter → List (Option NodeFilter) →
    Except BuildError (Option NodeFilter)
  | acc, [] => .ok acc
  | acc, c :: rest =>
    match acc, c with
    | some a, some b => sumClauses (some (a.add b)) rest
    | _, _ => .error .typeError

/-- transform_queries_to_filter of main.py: build the clause filter of each
query in ascending query-id order, start the result from the first one,
fold the rest in with the filter sum `+=`, and fall back to an
accept-everything filter when the result is still None. -/
def transform_queries_to_filter (queries : List (Nat × Query))
    (attribute_info : List (String × AttrInfo)) : Except BuildError NodeFilter :=
  match buildClausesE attribute_info (pySorted queries) with
  | .error e => .error e
  | .ok clauses =>
    match clauses with
    | [] => .ok trueNodeFilter
    | c :: rest =>
      match sumClauses c rest with
      | .error e => .error e
      | .ok none => .ok trueNodeFilter
      | .ok (some f) => .ok f

/-- UIAttributeQueriesManager.get_node_filter of main.py: restrict the
stored filter queries to the active ids and transform them to a filter. -/
def get_node_filter (filter_queries : List (Nat × Query)) (active_filter_queries : List Nat)
    (attribute_info : List (String × AttrInfo)) : Except BuildError NodeFilter :=
  transform_queries_to_filter
    (filter_queries.filter (fun t => active_filter_queries.contains t.1))
    attribute_info

/-- transform_queries_to_color_mapping of main.py: initialise every node id
with the default color, then walk the queries by descending id and
overwrite the color of every node the query's clause filter selects.
Python's sorted(..., reverse=True) is the reverse of the ascending sort
(the query ids are distinct).  Calling a None clause is a TypeError.
This is the per-query loop body. -/
def colorFoldE (attribute_info : List (String × AttrInfo))
    (g_nodes : List TemporalNode) :
    List (Int × String) → List (Nat × Query) → Except BuildError (List (Int × String))
  | colors, [] => .ok colors
  | colors, t :: rest =>
    match build_clause t.2.clauses attribute_info with
    | .error e => .error e
    | .ok none => .error .typeError
    | .ok (some f) =>
      colorFoldE attribute_info g_nodes
        ((f.apply g_nodes).foldl (fun d n => dictSet d n.id t.2.color) colors) rest

/-- transform_queries_to_color_mapping of main.py: initialise all node
ids with the default color, then recolor along the queries sorted by
descending id. -/
def transform_queries_to_color_mapping (queries : List (Nat × Query))
    (attribute_info : List (String × AttrInfo)) (temp_graph : TemporalGraph)
    (default_color : String) : Except BuildError (List (Int × String)) :=
  colorFoldE attribute_info temp_graph.nodes
    (temp_graph.nodes.foldl (fun d n => dictSet d n.id default_color) [])
    (pySorted queries).reverse

/- ### Granularity update handler -/

/-- The observable effect of applying a granularity: the stored
granularity, whether the Run button was enabled, and the messages
prepended to the redisplayed upload summary. -/
structure GranularityState where
  granularity : Nat
  run_button_disabled : Bool
  prepended_msgs : List String
deriving DecidableEq

/-- The red error line the handler prepends for an invalid value. -/
def granularityErrorMsg (value : Nat) : String :=
  "\x1b[31m" ++ toString value ++ " is an invalid granularity\x1b[0m"

/-- update_granularity_and_graph_data_output of main.py: the new
granularity is value * unit; it is rejected (error message prepended to
the summary, stored granularity unchanged) when it is below the update
delta, above latest - earliest, or not a multiple of the update delta;
otherwise it is stored and the Run button enabled. -/
def update_granularity_and_graph_data_output (value unit update_delta latest earliest : Nat)
    (s : GranularityState) : GranularityState :=
  let new_granularity := value * unit
  if new_granularity < update_delta ∨ new_granularity > latest - earliest ∨
      new_granularity % update_delta ≠ 0 then
    { s with prepended_msgs := [granularityErrorMsg value] }
  else
    { granularity := new_granularity,
      run_button_disabled := false,
      prepended_msgs := [] }

/- ### Graph upload handler -/

/-- An imported edge table row: (timestamp, node, node). -/
def EdgeList : Type := List (Int × Int × Int)

/-- Where the upload came from (local file widget or network URL). -/
inductive UploadOrigin where
  | LOCAL
  | NETWORK
deriving DecidableEq

/-- The exception classes the graph-upload handler catches. -/
inductive UploadError where
  | fileNotFound
  | httpError
  | urlError
  | osError
  | valueError
deriving DecidableEq

/-- The observable widget state the upload handler manipulates. -/
structure UploadState where
  edge_list : Option EdgeList
  graph_config_shown : Bool
  summary_shown : Bool
  error_shown : Option String
  loading : Bool

/-- The error message displayed for each caught exception class (the
OSError message gains a hint when the upload came from the network). -/
def uploadErrorMsg (origin : UploadOrigin) (file : String) : UploadError → String
  | .fileNotFound => "File " ++ file ++ " does not exist"
  | .httpError => "Could not access URL " ++ file
  | .urlError => "Could not access URL " ++ file
  | .osError =>
    let m := "Error accessing " ++ file ++ "."
    match origin with
    | .NETWORK => m ++ " Check your internet access or try again later."
    | .LOCAL => m
  | .valueError => "Invalid format: Columns 1-3 in " ++ file ++ " must be integers"

/-- The handler built by build_handle_upload_graph_data of main.py: it
first hides the configuration widgets, clears the output and starts the
loading indicator; then the file write plus vtna.data_import.read_edge_table
either produce an edge list (stored, configuration and summary opened) or
raise one of the caught exceptions (error message displayed instead); the
finally block stops the loading indicator on both paths. -/
def handle_upload_graph_data (import_result : Except UploadError EdgeList)
    (origin : UploadOrigin) (file : String) (s : UploadState) : UploadState :=
  let s0 : UploadState :=
    { s with graph_config_shown := false, summary_shown := false,
             error_shown := none, loading := true }
  match import_result with
  | .ok el =>
    { s0 with edge_list := some el, graph_config_shown := true,
              summary_shown := true, loading := false }
  | .error e =>
    { s0 with error_shown := some (uploadErrorMsg origin file e), loading := false }

/- ### Node measures manager -/

/-- The six vtna node-measure classes registered in
NodeMeasuresManager.node_measure_classes. -/
inductive MeasureKind where
  | localDegree
  | globalDegree
  | localBetweenness
  | globalBetweenness
  | localCloseness
  | globalCloseness
deriving DecidableEq

/-- Modelled from the spec: node_measure_classes, keyed by the external
classes' get_name() strings (local/global degree, betweenness and
closeness centrality); the concrete name strings live in the external
vtna library, only their distinctness matters here. -/
def node_measure_classes : List (String × MeasureKind) :=
  [("Local Degree Centrality", .localDegree),
   ("Global Degree Centrality", .globalDegree),
   ("Local Betweenness Centrality", .localBetweenness),
   ("Global Betweenness Centrality", .globalBetweenness),
   ("Local Closeness Centrality", .localCloseness),
   ("Global Closeness Centrality", .globalCloseness)]

/-- Modelled from the spec: an instantiated node measure, i.e. a measure
class applied to the temporal graph. -/
structure NodeMeasure where
  kind : MeasureKind
  graph : TemporalGraph

/-- The ways NodeMeasuresManager.__init__ can fail: its own
DuplicateMeasuresError, or Python's KeyError on an unknown measure name. -/
inductive MeasuresInitError where
  | duplicateMeasures (names : List String)
  | keyError (name : String)

/-- The list comprehension
[(nm, node_measure_classes[nm](temporal_graph)) for nm in requested]:
look each name up in node_measure_classes (a missing name is Python's
KeyError) and instantiate the class on the graph. -/
def instantiate_measures (temporal_graph : TemporalGraph) :
    List String → Except MeasuresInitError (List (String × NodeMeasure))
  | [] => .ok []
  | nm :: rest =>
    match dictGet? node_measure_classes nm with
    | some k =>
      (instantiate_measures temporal_graph rest).map
        (fun ms => (nm, NodeMeasure.mk k temporal_graph) :: ms)
    | none => .error (.keyError nm)

/-- NodeMeasuresManager.__init__ of main.py: count the requested names,
raise DuplicateMeasuresError when any name occurs more than once, and
otherwise build the dict mapping each requested name to the instantiated
measure class. -/
def NodeMeasuresManager.init (temporal_graph : TemporalGraph)
    (requested_node_measures : List String) :
    Except MeasuresInitError (List (String × NodeMeasure)) :=
  let duplicate_names :=
    requested_node_measures.dedup.filter
      (fun n => 1 < requested_node_measures.count n)
  if duplicate_names.isEmpty then
    instantiate_measures temporal_graph requested_node_measures
  else
    .error (.duplicateMeasures duplicate_names)

/- ### Video export -/

/-- The observable state of a VideoExport: the build/write counters, the
frame indices handed to the plotter, the number of images appended to the
writer, the progress-bar state, and whether the writer was closed. -/
structure VideoExportState where
  total_frames : Nat
  frame_count : Nat
  progress_target : Nat
  progress : Nat
  build_index : Nat
  written_frames : Nat
  built_frames : List Nat
  writer_frames : Nat
  writer_closed : Bool
  export_finished : Bool
deriving DecidableEq

/-- VideoExport.__build_frame of main.py: plot the frame at build_index,
advance build_index and bump the progress bar. -/
def VideoExport.build_frame (s : VideoExportState) : VideoExportState :=
  { s with built_frames := s.built_frames ++ [s.build_index],
           build_index := s.build_index + 1,
           progress := s.progress + 1 }

/-- VideoExport.__init__ of main.py for a selected export range (a, b):
frame_count is time_range[1] - time_range[0], the progress bar target is
frame_count * 2, and the first frame is built immediately. -/
def VideoExport.init (total_frames a b : Nat) : VideoExportState :=
  let frame_count := b - a
  VideoExport.build_frame
    { total_frames := total_frames,
      frame_count := frame_count,
      progress_target := frame_count * 2,
      progress := 0,
      build_index := 0,
      written_frames := 0,
      built_frames := [],
      writer_frames := 0,
      writer_closed := false,
      export_finished := false }

/-- VideoExport.write_frame of main.py: append the extracted image to the
writer, bump the progress bar, and either finish (close the writer) when
written_frames reaches frame_count or build the next frame. -/
def VideoExport.write_frame (s : VideoExportState) : VideoExportState :=
  let s1 : VideoExportState :=
    { s with writer_frames := s.writer_frames + 1,
             written_frames := s.written_frames + 1,
             progress := s.progress + 1 }
  if s1.written_frames = s1.frame_count then
    { s1 with writer_closed := true, export_finished := true }
  else
    VideoExport.build_frame s1

/-- The export run: the init builds the first frame and every completed
write triggers the next build, so the whole export is init followed by one
write_frame call per extracted image. -/
def VideoExport.run (total_frames a b k : Nat) : VideoExportState :=
  VideoExport.write_frame^[k] (VideoExport.init total_frames a b)

/-- The GIF speed-up duration list is built from the slice
frames[time_range[0] : time_range[1] + 1]; this is the list of frame
indices that slice covers. -/
def gif_duration_slice (total_frames a b : Nat) : List Nat :=
  ((List.range total_frames).drop a).take (b + 1 - a)

/- ### Query manager state machine -/

/-- Whether a Python string contains "NOT" as a substring
(the `'NOT' in op` check of build_delete_query_clause). -/
def charListContains (pat : List Char) : List Char → Bool
  | [] => pat.isEmpty
  | c :: rest => pat.isPrefixOf (c :: rest) || charListContains pat rest

/-- Whether a Python string contains "NOT" as a substring, continued. -/
def strContainsNOT (s : String) : Bool :=
  charListContains "NOT".toList s.toList

/-- The query-manager state for one mode (filter or highlight): the stored
queries dict, the query counter, and the active-query id list. -/
structure QMState where
  queries : List (Nat × Query)
  query_counter : Nat
  active : List Nat

/-- The state after UIAttributeQueriesManager.__init__ (and likewise after
delete-all): no queries, counter 1. -/
def initialQMState : QMState :=
  { queries := [], query_counter := 1, active := [] }

/-- The add-query handler (__build_add_query of main.py): store a new query
under the current counter with the single clause dictionary
\x7b1: \x7b'operator': 'NOT' if negated else 'NEW', 'value': (attribute, value)\x7d\x7d,
mark it active, and bump the counter.  (The handler's early return on an
unknown node id leaves the state unchanged.) -/
def add_query (negated : Bool) (color attr_name : String) (v : RawValue)
    (s : QMState) : QMState :=
  { queries := dictSet s.queries s.query_counter
      { color := color,
        clauses := [(1, { operator := if negated then "NOT" else "NEW",
                          value := (attr_name, v) })] },
    query_counter := s.query_counter + 1,
    active := s.active ++ [s.query_counter] }

/-- The add-clause handler (build_add_query_clause of main.py): insert the
new clause at max(existing clause keys) + 1.  A missing query id is
Python's KeyError (no state change); Python's max() would raise on an
empty clause dict, which reachable states never hold. -/
def add_query_clause (query_id : Nat) (op attr_name : String) (v : RawValue)
    (s : QMState) : Option QMState :=
  match dictGet? s.queries query_id with
  | none => none
  | some q =>
    let new_clause_idx := maxKey q.clauses + 1
    let new_clause : RawPredicate := { operator := op, value := (attr_name, v) }
    let q' : Query := { q with clauses := dictSet q.clauses new_clause_idx new_clause }
    some { s with queries := dictSet s.queries query_id q' }

/-- The delete-clause handler (build_delete_query_clause of main.py):
remove the clause; when the clause dict becomes empty remove the whole
query; otherwise, when the removed clause was an initial one (operator
'NEW' or 'NOT'), rewrite the operator of the clause at the new minimal
key to 'NOT' when it contains 'NOT' and to 'NEW' otherwise. -/
def delete_query_clause (query_id clause_id : Nat) (s : QMState) : Option QMState :=
  match dictGet? s.queries query_id with
  | none => none
  | some q =>
    match dictGet? q.clauses clause_id with
    | none => none
    | some clause =>
      let is_initial := clause.operator == "NEW" || clause.operator == "NOT"
      let remaining := dictPop q.clauses clause_id
      if remaining.isEmpty then
        some { s with queries := dictPop s.queries query_id }
      else if is_initial then
        match minEntry remaining with
        | none => none
        | some e =>
          let new_op := if strContainsNOT e.2.operator then "NOT" else "NEW"
          let e' : RawPredicate := { e.2 with operator := new_op }
          let q' : Query := { q with clauses := dictSet remaining e.1 e' }
          some { s with queries := dictSet s.queries query_id q' }
      else
        let q' : Query := { q with clauses := remaining }
        some { s with queries := dictSet s.queries query_id q' }

/-- The delete-query handler (build_delete_query of main.py): pop the
query; a missing id is Python's KeyError. -/
def delete_query (query_id : Nat) (s : QMState) : Option QMState :=
  match dictGet? s.queries query_id with
  | none => none
  | some _ => some { s with queries := dictPop s.queries query_id }

/-- The delete-all handler (__build_delete_all_queries of main.py): reset
the queries dict and the counter (the active-id list is not touched). -/
def reset_queries (s : QMState) : QMState :=
  { queries := [], query_counter := 1, active := s.active }

/-- The states reachable from the initial query-manager state through the
add-query, add-clause, delete-clause, delete-query and delete-all
handlers. -/
inductive QMReachable : QMState → Prop where
  | init : QMReachable initialQMState
  | add_query {s} (negated : Bool) (color attr_name : String) (v : RawValue) :
      QMReachable s → QMReachable (add_query negated color attr_name v s)
  | add_clause {s s'} (query_id : Nat) (op attr_name : String) (v : RawValue) :
      QMReachable s → add_query_clause query_id op attr_name v s = some s' →
      QMReachable s'
  | delete_clause {s s'} (query_id clause_id : Nat) :
      QMReachable s → delete_query_clause query_id clause_id s = some s' →
      QMReachable s'
  | delete_query {s s'} (query_id : Nat) :
      QMReachable s → delete_query query_id s = some s' → QMReachable s'
  | reset {s} : QMReachable s → QMReachable (reset_queries s)

/-- The per-query invariant: a non-empty clause dict with distinct keys
whose minimal-key clause has operator 'NEW' or 'NOT'. -/
def QueryWF (q : Query) : Prop :=
  q.clauses ≠ [] ∧ (dictKeys q.clauses).Nodup ∧
  ∃ e, minEntry q.clauses = some e ∧
    (e.2.operator = "NEW" ∨ e.2.operator = "NOT")

/-- The query-manager invariant: distinct query ids, and every stored
query is well-formed. -/
def QMInv (s : QMState) : Prop :=
  (dictKeys s.queries).Nodup ∧ ∀ p ∈ s.queries, QueryWF p.2

/- ### Lemmas about the dict embedding -/

section PyDictLemmas

variable {κ α : Type} [DecidableEq κ]

theorem dictGet?_some_mem {d : List (κ × α)} {k : κ} {v : α}
    (h : dictGet? d k = some v) : (k, v) ∈ d := by
  induction d with
  | nil => simp [dictGet?] at h
  | cons p rest ih =>
    obtain ⟨a, b⟩ := p
    by_cases hk : a = k
    · subst hk
      simp [dictGet?] at h
      subst h
      exact List.mem_cons_self _ _
    · simp [dictGet?, hk] at h
      exact List.mem_cons_of_mem _ (ih h)

theorem mem_dictSet_elim {d : List (κ × α)} {k : κ} {v : α} {p : κ × α}
    (h : p ∈ dictSet d k v) : p = (k, v) ∨ p ∈ d := by
  induction d with
  | nil => simp [dictSet] at h; simp [h]
  | cons q rest ih =>
    by_cases hk : q.1 = k
    · simp [dictSet, hk] at h
      rcases h with h | h
      · exact Or.inl h
      · exact Or.inr (List.mem_cons_of_mem _ h)
    · simp [dictSet, hk] at h
      rcases h with h | h
      · exact Or.inr (by simp [h])
      · rcases ih h with h' | h'
        · exact Or.inl h'
        · exact Or.inr (List.mem_cons_of_mem _ h')

theorem dictSet_self_mem (d : List (κ × α)) (k : κ) (v : α) :
    (k, v) ∈ dictSet d k v := by
  induction d with
  | nil => simp [dictSet]
  | cons q rest ih =>
    by_cases hk : q.1 = k
    · simp [dictSet, hk]
    · simp [dictSet, hk]
      exact Or.inr ih

theorem dictSet_ne_nil (d : List (κ × α)) (k : κ) (v : α) :
    dictSet d k v ≠ [] := by
  cases d with
  | nil => simp [dictSet]
  | cons q rest =>
    by_cases hk : q.1 = k <;> simp [dictSet, hk]

theorem dictKeys_dictSet (d : List (κ × α)) (k : κ) (v : α) :
    dictKeys (dictSet d k v) =
      if k ∈ dictKeys d then dictKeys d else dictKeys d ++ [k] := by
  induction d with
  | nil => simp [dictSet, dictKeys]
  | cons q rest ih =>
    obtain ⟨a, b⟩ := q
    by_cases hk : a = k
    · subst hk
      simp [dictSet, dictKeys]
    · have hka : ¬ k = a := fun hh => hk hh.symm
      simp only [dictKeys, List.map_cons] at ih ⊢
      simp only [dictSet, if_neg hk, List.map_cons, List.mem_cons]
      rw [ih]
      by_cases hmem : k ∈ List.map Prod.fst rest
      · simp [hmem, hka]
      · simp [hmem, hka]

theorem nodup_dictKeys_dictSet {d : List (κ × α)} (k : κ) (v : α)
    (h : (dictKeys d).Nodup) : (dictKeys (dictSet d k v)).Nodup := by
  rw [dictKeys_dictSet]
  by_cases hmem : k ∈ dictKeys d
  · simp [hmem, h]
  · simp only [hmem, if_false]
    simp [List.nodup_append, h, hmem]

theorem dictSet_eq_append {d : List (κ × α)} {k : κ} (v : α)
    (h : k ∉ dictKeys d) : dictSet d k v = d ++ [(k, v)] := by
  induction d with
  | nil => simp [dictSet]
  | cons q rest ih =>
    rw [dictKeys, List.map_cons, List.mem_cons] at h
    push_neg at h
    have hk : ¬ q.1 = k := fun hq => h.1 hq.symm
    simp [dictSet, hk, ih h.2]

theorem dictPop_sublist (d : List (κ × α)) (k : κ) : (dictPop d k).Sublist d := by
  induction d with
  | nil => simp [dictPop]
  | cons q rest ih =>
    by_cases hk : q.1 = k
    · simp only [dictPop, if_pos hk]
      exact List.sublist_cons_self q rest
    · simp only [dictPop, if_neg hk]
      exact List.Sublist.cons₂ q ih

theorem mem_of_mem_dictPop {d : List (κ × α)} {k : κ} {p : κ × α}
    (h : p ∈ dictPop d k) : p ∈ d :=
  (dictPop_sublist d k).mem h

theorem mem_dictPop_of_ne {d : List (κ × α)} {k : κ} {p : κ × α}
    (hp : p ∈ d) (hne : p.1 ≠ k) : p ∈ dictPop d k := by
  induction d with
  | nil => simp at hp
  | cons q rest ih =>
    by_cases hk : q.1 = k
    · simp only [dictPop, if_pos hk]
      rcases List.mem_cons.mp hp with h | h
      · exact absurd (by rw [h]; exact hk) hne
      · exact h
    · simp only [dictPop, if_neg hk, List.mem_cons]
      rcases List.mem_cons.mp hp with h | h
      · exact Or.inl h
      · exact Or.inr (ih h)

omit [DecidableEq κ] in
theorem nodup_val_eq {d : List (κ × α)} {k : κ} {v v' : α}
    (hnd : (dictKeys d).Nodup) (h1 : (k, v) ∈ d) (h2 : (k, v') ∈ d) : v = v' := by
  induction d with
  | nil => simp at h1
  | cons q rest ih =>
    rw [dictKeys, List.map_cons, List.nodup_cons] at hnd
    rcases List.mem_cons.mp h1 with e1 | e1 <;> rcases List.mem_cons.mp h2 with e2 | e2
    · rw [← e1] at e2
      exact (congrArg Prod.snd e2).symm
    · exfalso
      apply hnd.1
      rw [← e1]
      simpa using List.mem_map_of_mem Prod.fst e2
    · exfalso
      apply hnd.1
      rw [← e2]
      simpa using List.mem_map_of_mem Prod.fst e1
    · exact ih hnd.2 e1 e2

theorem dictGet?_dictSet_self (d : List (κ × α)) (k : κ) (v : α) :
    dictGet? (dictSet d k v) k = some v := by
  induction d with
  | nil => simp [dictSet, dictGet?]
  | cons q rest ih =>
    by_cases hk : q.1 = k
    · simp [dictSet, hk, dictGet?]
    · simp [dictSet, hk, dictGet?, ih]

theorem dictGet?_dictSet_ne (d : List (κ × α)) {k k' : κ} (v : α)
    (h : k' ≠ k) : dictGet? (dictSet d k v) k' = dictGet? d k' := by
  have hkk : ¬ k = k' := fun hh => h hh.symm
  induction d with
  | nil => simp [dictSet, dictGet?, hkk]
  | cons q rest ih =>
    by_cases hk : q.1 = k
    · simp only [dictSet, if_pos hk, dictGet?]
      rw [if_neg hkk, if_neg (show ¬ q.1 = k' by rw [hk]; exact hkk)]
    · simp only [dictSet, if_neg hk, dictGet?]
      by_cases hk' : q.1 = k'
      · rw [if_pos hk', if_pos hk']
      · rw [if_neg hk', if_neg hk', ih]

end PyDictLemmas

/- ### Lemmas about minEntry, maxKey and pySorted -/

theorem minEntry_isSome {α : Type} {l : List (Nat × α)} (h : l ≠ []) :
    ∃ e, minEntry l = some e := by
  cases l with
  | nil => exact absurd rfl h
  | cons p rest =>
    rw [minEntry]
    split
    · exact ⟨p, rfl⟩
    · rename_i q hm
      by_cases hle : p.1 ≤ q.1
      · exact ⟨p, by rw [if_pos hle]⟩
      · exact ⟨q, by rw [if_neg hle]⟩

theorem minEntry_eq_none_iff {α : Type} {l : List (Nat × α)} :
    minEntry l = none ↔ l = [] := by
  constructor
  · intro h
    by_contra hne
    obtain ⟨e, he⟩ := minEntry_isSome hne
    rw [h] at he
    cases he
  · intro h
    subst h
    rfl

theorem minEntry_mem {α : Type} {l : List (Nat × α)} :
    ∀ {e : Nat × α}, minEntry l = some e → e ∈ l := by
  induction l with
  | nil => intro e h; simp [minEntry] at h
  | cons p rest ih =>
    intro e h
    rw [minEntry] at h
    split at h
    · simp at h
      simp [h]
    · rename_i q hm
      by_cases hle : p.1 ≤ q.1
      · rw [if_pos hle] at h
        simp at h
        simp [h]
      · rw [if_neg hle] at h
        simp at h
        subst h
        exact List.mem_cons_of_mem _ (ih hm)

theorem minEntry_le {α : Type} {l : List (Nat × α)} :
    ∀ {e : Nat × α}, minEntry l = some e → ∀ p ∈ l, e.1 ≤ p.1 := by
  induction l with
  | nil => intro e h; simp [minEntry] at h
  | cons p rest ih =>
    intro e h x hx
    rw [minEntry] at h
    split at h
    · rename_i hm
      have hrest : rest = [] := minEntry_eq_none_iff.mp hm
      subst hrest
      simp at h hx
      subst h
      subst hx
      exact Nat.le_refl _
    · rename_i q hm
      have hq := ih hm
      by_cases hle : p.1 ≤ q.1
      · rw [if_pos hle] at h
        simp at h
        subst h
        rcases List.mem_cons.mp hx with hx | hx
        · subst hx
          exact Nat.le_refl _
        · exact Nat.le_trans hle (hq x hx)
      · rw [if_neg hle] at h
        simp at h
        subst h
        rcases List.mem_cons.mp hx with hx | hx
        · subst hx
          exact Nat.le_of_lt (Nat.lt_of_not_le hle)
        · exact hq x hx

theorem minEntry_eq_of {α : Type} {l : List (Nat × α)} {e : Nat × α}
    (hnd : (dictKeys l).Nodup) (he : e ∈ l) (hmin : ∀ p ∈ l, e.1 ≤ p.1) :
    minEntry l = some e := by
  induction l with
  | nil => simp at he
  | cons p rest ih =>
    rw [dictKeys, List.map_cons, List.nodup_cons] at hnd
    rw [minEntry]
    split
    · rename_i hm
      have hrest : rest = [] := minEntry_eq_none_iff.mp hm
      subst hrest
      simp at he
      rw [he]
    · rename_i q hm
      rcases List.mem_cons.mp he with he' | he'
      · subst he'
        have : e.1 ≤ q.1 := hmin q (List.mem_cons_of_mem _ (minEntry_mem hm))
        rw [if_pos this]
      · have hre : minEntry rest = some e :=
          ih hnd.2 he' (fun p' hp' => hmin p' (List.mem_cons_of_mem _ hp'))
        rw [hre] at hm
        simp at hm
        subst hm
        have hep : e.1 ≤ p.1 := hmin p (List.mem_cons_self _ _)
        have hne : p.1 ≠ e.1 := by
          intro hh
          apply hnd.1
          rw [hh]
          simpa using List.mem_map_of_mem Prod.fst he'
        rw [if_neg (fun hh => hne (Nat.le_antisymm hh hep))]

theorem foldl_max_le_init {α : Type} : ∀ (l : List (Nat × α)) (m : Nat),
    m ≤ l.foldl (fun a q => max a q.1) m
  | [], m => Nat.le_refl m
  | q :: rest, m =>
    Nat.le_trans (Nat.le_max_left m q.1) (foldl_max_le_init rest (max m q.1))

theorem maxKey_ge {α : Type} {l : List (Nat × α)} {p : Nat × α} (hp : p ∈ l) :
    p.1 ≤ maxKey l := by
  have gen : ∀ (l' : List (Nat × α)) (m : Nat), p ∈ l' →
      p.1 ≤ l'.foldl (fun a q => max a q.1) m := by
    intro l'
    induction l' with
    | nil => intro m hm; simp at hm
    | cons q rest ih =>
      intro m hm
      rcases List.mem_cons.mp hm with h | h
      · subst h
        simp only [List.foldl_cons]
        exact Nat.le_trans (Nat.le_max_right m p.1) (foldl_max_le_init rest (max m p.1))
      · simp only [List.foldl_cons]
        exact ih (max m q.1) h
  exact gen l 0 hp

theorem mem_insertByKey {α : Type} {x y : Nat × α} {l : List (Nat × α)} :
    y ∈ insertByKey x l ↔ y = x ∨ y ∈ l := by
  induction l with
  | nil => simp [insertByKey]
  | cons p rest ih =>
    by_cases hle : x.1 ≤ p.1
    · simp [insertByKey, hle]
    · simp [insertByKey, hle, ih]
      tauto

theorem insertByKey_perm {α : Type} (x : Nat × α) (l : List (Nat × α)) :
    (insertByKey x l).Perm (x :: l) := by
  induction l with
  | nil => simp [insertByKey]
  | cons p rest ih =>
    by_cases hle : x.1 ≤ p.1
    · simp [insertByKey, hle]
    · simp only [insertByKey, if_neg hle]
      exact (ih.cons p).trans (List.Perm.swap x p rest)

theorem pySorted_perm {α : Type} (l : List (Nat × α)) : (pySorted l).Perm l := by
  induction l with
  | nil => simp [pySorted]
  | cons p rest ih =>
    have h : pySorted (p :: rest) = insertByKey p (pySorted rest) := rfl
    rw [h]
    exact (insertByKey_perm p (pySorted rest)).trans (ih.cons p)

theorem mem_pySorted {α : Type} {y : Nat × α} {l : List (Nat × α)} :
    y ∈ pySorted l ↔ y ∈ l :=
  (pySorted_perm l).mem_iff

theorem pySorted_eq_nil_iff {α : Type} {l : List (Nat × α)} :
    pySorted l = [] ↔ l = [] := by
  constructor
  · intro h
    exact List.Perm.eq_nil ((pySorted_perm l).symm.trans (h ▸ List.Perm.refl _))
  · intro h
    subst h
    rfl

theorem pairwise_insertByKey {α : Type} {x : Nat × α} {l : List (Nat × α)}
    (h : l.Pairwise (fun a b => a.1 ≤ b.1)) :
    (insertByKey x l).Pairwise (fun a b => a.1 ≤ b.1) := by
  induction l with
  | nil => simp [insertByKey]
  | cons p rest ih =>
    rw [List.pairwise_cons] at h
    by_cases hle : x.1 ≤ p.1
    · simp only [insertByKey, if_pos hle]
      rw [List.pairwise_cons]
      constructor
      · intro y hy
        rcases List.mem_cons.mp hy with hy | hy
        · subst hy
          exact hle
        · exact Nat.le_trans hle (h.1 y hy)
      · rw [List.pairwise_cons]
        exact h
    · simp only [insertByKey, if_neg hle]
      rw [List.pairwise_cons]
      constructor
      · intro y hy
        rcases mem_insertByKey.mp hy with hy | hy
        · subst hy
          exact Nat.le_of_lt (Nat.lt_of_not_le hle)
        · exact h.1 y hy
      · exact ih h.2

theorem pySorted_pairwise {α : Type} (l : List (Nat × α)) :
    (pySorted l).Pairwise (fun a b => a.1 ≤ b.1) := by
  induction l with
  | nil => simp [pySorted]
  | cons p rest ih =>
    have h : pySorted (p :: rest) = insertByKey p (pySorted rest) := rfl
    rw [h]
    exact pairwise_insertByKey ih

theorem dictGet?_of_mem_keys {κ α : Type} [DecidableEq κ] {d : List (κ × α)} {k : κ}
    (h : k ∈ dictKeys d) : ∃ v, dictGet? d k = some v := by
  induction d with
  | nil => simp [dictKeys] at h
  | cons p rest ih =>
    by_cases hk : p.1 = k
    · exact ⟨p.2, by simp [dictGet?, hk]⟩
    · rw [dictKeys, List.map_cons, List.mem_cons] at h
      rcases h with h | h
      · exact absurd h.symm hk
      · obtain ⟨v, hv⟩ := ih h
        exact ⟨v, by simp [dictGet?, hk, hv]⟩

/- ### C10: build_clause on the empty clause dict -/

/-- C10: applied to an empty clause dictionary, build_clause returns None
rather than a NodeFilter, so a caller obtains a usable filter only from a
clause dictionary with at least one entry: a some-result forces the input
to be non-empty. -/
theorem build_clause_empty_none (attribute_info : List (String × AttrInfo)) :
    build_clause [] attribute_info = .ok none ∧
    ∀ (raw_clause : List (Nat × RawPredicate)) (f : NodeFilter),
      build_clause raw_clause attribute_info = .ok (some f) → raw_clause ≠ [] := by
  refine ⟨rfl, ?_⟩
  intro raw f h hnil
  subst hnil
  exact Option.noConfusion (Except.ok.inj h)

/-- C10 witness: on a concrete singleton clause dict build_clause returns a
NodeFilter, and the theorem concludes that input is non-empty. -/
theorem build_clause_empty_none_witness :
    ([(1, ({ operator := "NEW", value := ("a", RawValue.str "x") } : RawPredicate))] :
      List (Nat × RawPredicate)) ≠ [] :=
  (build_clause_empty_none [("a", { measurement_type := "N", categories := [] })]).2
    [(1, { operator := "NEW", value := ("a", RawValue.str "x") })]
    ⟨categorical_attribute_equal "a" (RawValue.str "x")⟩ rfl

/- ### C5: granularity update -/

/-- C5: applying a granularity stores value * unit exactly when it is at
least the update delta, at most latest - earliest, and a multiple of the
update delta; otherwise an error message is prepended to the upload
summary and the stored granularity is unchanged. -/
theorem granularity_update_correct (value unit update_delta latest earliest : Nat)
    (s : GranularityState) (_hdelta : 0 < update_delta) (_hle : earliest ≤ latest) :
    ((update_delta ≤ value * unit ∧ value * unit ≤ latest - earliest ∧
        value * unit % update_delta = 0) →
      ((update_granularity_and_graph_data_output value unit update_delta latest earliest
          s).granularity = value * unit ∧
       (update_granularity_and_graph_data_output value unit update_delta latest earliest
          s).prepended_msgs = [] ∧
       (update_granularity_and_graph_data_output value unit update_delta latest earliest
          s).run_button_disabled = false)) ∧
    (¬(update_delta ≤ value * unit ∧ value * unit ≤ latest - earliest ∧
        value * unit % update_delta = 0) →
      ((update_granularity_and_graph_data_output value unit update_delta latest earliest
          s).granularity = s.granularity ∧
       (update_granularity_and_graph_data_output value unit update_delta latest earliest
          s).prepended_msgs = [granularityErrorMsg value])) := by
  constructor
  · intro hok
    have hcond : ¬(value * unit < update_delta ∨ latest - earliest < value * unit ∨
        ¬ value * unit % update_delta = 0) := by
      push_neg
      exact ⟨hok.1, hok.2.1, hok.2.2⟩
    simp [update_granularity_and_graph_data_output, hcond]
  · intro hbad
    have hcond : value * unit < update_delta ∨ latest - earliest < value * unit ∨
        ¬ value * unit % update_delta = 0 := by
      by_contra hc
      push_neg at hc
      exact hbad ⟨hc.1, hc.2.1, hc.2.2⟩
    simp [update_granularity_and_graph_data_output, hcond]

/-- C5 witness: with update delta 10, time span 100 and current
granularity 30, the valid value 50 (seconds) is stored, as concluded by
the theorem at that input. -/
theorem granularity_update_correct_witness :
    (update_granularity_and_graph_data_output 50 1 10 1100 1000
      { granularity := 30, run_button_disabled := true,
        prepended_msgs := [] }).granularity = 50 ∧
    (update_granularity_and_graph_data_output 50 1 10 1100 1000
      { granularity := 30, run_button_disabled := true,
        prepended_msgs := [] }).prepended_msgs = [] :=
  have h := granularity_update_correct 50 1 10 1100 1000
    { granularity := 30, run_button_disabled := true, prepended_msgs := [] }
    (by decide) (by decide)
  ⟨(h.1 (by decide)).1, (h.1 (by decide)).2.1⟩

/- ### C6: graph upload error handling -/

/-- C6: whatever the import outcome, the loading indicator ends stopped;
and on each caught exception class the handler shows the corresponding
error message, does not open the graph configuration or the summary, and
leaves the stored edge list unchanged. -/
theorem upload_handler_error_paths (import_result : Except UploadError EdgeList)
    (origin : UploadOrigin) (file : String) (s : UploadState) :
    (handle_upload_graph_data import_result origin file s).loading = false ∧
    (∀ e, import_result = .error e →
      ((handle_upload_graph_data import_result origin file s).edge_list = s.edge_list ∧
       (handle_upload_graph_data import_result origin file s).error_shown =
         some (uploadErrorMsg origin file e) ∧
       (handle_upload_graph_data import_result origin file s).graph_config_shown = false ∧
       (handle_upload_graph_data import_result origin file s).summary_shown = false)) := by
  cases import_result with
  | ok el =>
    refine ⟨rfl, ?_⟩
    intro e he
    cases he
  | error e =>
    refine ⟨rfl, ?_⟩
    intro e' he
    cases he
    exact ⟨rfl, rfl, rfl, rfl⟩

/-- A concrete pre-state for the upload-handler witness. -/
def uploadState₀ : UploadState :=
  { edge_list := none, graph_config_shown := false, summary_shown := false,
    error_shown := none, loading := false }

/-- C6 witness: a FileNotFoundError on a local upload leaves the edge list
unchanged, shows the file-does-not-exist message, opens nothing, and stops
the loading indicator, by the theorem at that concrete input. -/
theorem upload_handler_error_paths_witness :
    (handle_upload_graph_data (Except.error UploadError.fileNotFound)
        UploadOrigin.LOCAL "edges.csv" uploadState₀).loading = false ∧
    (handle_upload_graph_data (Except.error UploadError.fileNotFound)
        UploadOrigin.LOCAL "edges.csv" uploadState₀).edge_list = uploadState₀.edge_list ∧
    (handle_upload_graph_data (Except.error UploadError.fileNotFound)
        UploadOrigin.LOCAL "edges.csv" uploadState₀).error_shown =
      some "File edges.csv does not exist" :=
  have h := upload_handler_error_paths (Except.error UploadError.fileNotFound)
    UploadOrigin.LOCAL "edges.csv" uploadState₀
  ⟨h.1, (h.2 UploadError.fileNotFound rfl).1, (h.2 UploadError.fileNotFound rfl).2.1⟩

/- ### C3: video export frame range -/

/-- C3 evidence: for the selected export range (0, 2) over a 4-frame
animation the exporter sets frame_count = 2, builds and writes only the
frames 0 and 1, reaches progress 4 = frame_count * 2 and closes the
writer there, while the inclusive GIF duration slice frames[0:3] covers 3
frames; so the inclusive range 0..2 (3 frames) claimed is not what is
processed. -/
theorem videoExport_drops_frames_of_selected_range :
    (VideoExport.run 4 0 2 2).frame_count = 2 ∧
    (VideoExport.run 4 0 2 2).writer_closed = true ∧
    (VideoExport.run 4 0 2 2).writer_frames = 2 ∧
    (VideoExport.run 4 0 2 2).built_frames = [0, 1] ∧
    (VideoExport.run 4 0 2 2).progress = 4 ∧
    (VideoExport.run 4 0 2 2).progress_target = 4 ∧
    gif_duration_slice 4 0 2 = [0, 1, 2] ∧
    (2 : Nat) - 0 + 1 = 3 := by
  decide

/- ### C7: node measures manager -/

theorem instantiate_ne_dupError (g : TemporalGraph) :
    ∀ (l : List String) (d : List String),
      instantiate_measures g l ≠ .error (.duplicateMeasures d) := by
  intro l
  induction l with
  | nil =>
    intro d h
    cases h
  | cons nm rest ih =>
    intro d h
    rw [instantiate_measures] at h
    split at h
    · rename_i k hk
      cases hrec : instantiate_measures g rest with
      | ok ms =>
        rw [hrec] at h
        simp [Except.map] at h
      | error e =>
        rw [hrec] at h
        simp [Except.map] at h
        exact ih d (by rw [hrec, h])
    · simp at h

theorem instantiate_ok_of_valid (g : TemporalGraph) :
    ∀ (l : List String), (∀ n ∈ l, n ∈ dictKeys node_measure_classes) →
      ∃ ms, instantiate_measures g l = .ok ms ∧ dictKeys ms = l ∧
        ∀ p ∈ ms, p.2.graph = g ∧ dictGet? node_measure_classes p.1 = some p.2.kind := by
  intro l
  induction l with
  | nil =>
    intro _
    exact ⟨[], rfl, rfl, by simp⟩
  | cons nm rest ih =>
    intro hvalid
    obtain ⟨k, hk⟩ := dictGet?_of_mem_keys (hvalid nm (List.mem_cons_self _ _))
    obtain ⟨ms, hms, hkeys, hprop⟩ := ih (fun n hn => hvalid n (List.mem_cons_of_mem _ hn))
    refine ⟨(nm, NodeMeasure.mk k g) :: ms, ?_, ?_, ?_⟩
    · simp only [instantiate_measures, hk, hms, Except.map]
    · rw [dictKeys, List.map_cons]
      rw [dictKeys] at hkeys
      rw [hkeys]
    · intro p hp
      rcases List.mem_cons.mp hp with hp | hp
      · subst hp
        exact ⟨rfl, hk⟩
      · exact hprop p hp

/-- C7: NodeMeasuresManager raises DuplicateMeasuresError exactly when
some requested measure name occurs more than once; otherwise (for known
measure names) it instantiates and computes exactly one measure object per
requested name, keyed by that name. -/
theorem node_measures_manager_init_spec (g : TemporalGraph) (requested : List String) :
    ((∃ d, NodeMeasuresManager.init g requested = .error (.duplicateMeasures d)) ↔
      ∃ n ∈ requested, 1 < requested.count n) ∧
    ((∀ n ∈ requested, n ∈ dictKeys node_measure_classes) →
      (∀ n ∈ requested, requested.count n ≤ 1) →
      ∃ ms, NodeMeasuresManager.init g requested = .ok ms ∧
        dictKeys ms = requested ∧
        ∀ p ∈ ms, p.2.graph = g ∧ dictGet? node_measure_classes p.1 = some p.2.kind) := by
  have hinit : NodeMeasuresManager.init g requested =
      if (requested.dedup.filter (fun n => 1 < requested.count n)).isEmpty then
        instantiate_measures g requested
      else
        .error (.duplicateMeasures
          (requested.dedup.filter (fun n => 1 < requested.count n))) := rfl
  constructor
  · constructor
    · rintro ⟨d, hd⟩
      rw [hinit] at hd
      by_cases hemp : requested.dedup.filter (fun n => 1 < requested.count n) = []
      · rw [if_pos (by simp [hemp])] at hd
        exact absurd hd (instantiate_ne_dupError g requested d)
      · obtain ⟨x, hx⟩ := List.exists_mem_of_ne_nil _ hemp
        rw [List.mem_filter] at hx
        exact ⟨x, List.mem_dedup.mp hx.1, of_decide_eq_true hx.2⟩
    · rintro ⟨n, hn, hcount⟩
      have hmem : n ∈ requested.dedup.filter (fun n => 1 < requested.count n) :=
        List.mem_filter.mpr ⟨List.mem_dedup.mpr hn, decide_eq_true hcount⟩
      have hne : ¬ (requested.dedup.filter
          (fun n => 1 < requested.count n)).isEmpty = true := by
        intro hh
        rw [List.isEmpty_iff] at hh
        rw [hh] at hmem
        simp at hmem
      exact ⟨_, by rw [hinit, if_neg hne]⟩
  · intro hvalid hnodup
    have hemp : requested.dedup.filter (fun n => 1 < requested.count n) = [] := by
      rw [List.filter_eq_nil_iff]
      intro a ha
      simp only [decide_eq_true_eq]
      exact Nat.not_lt.mpr (hnodup a (List.mem_dedup.mp ha))
    obtain ⟨ms, hms, hkeys, hprop⟩ := instantiate_ok_of_valid g requested hvalid
    refine ⟨ms, ?_, hkeys, hprop⟩
    rw [hinit, if_pos (by simp [hemp]), hms]

/-- An empty temporal graph for concrete witnesses. -/
def graph₀ : TemporalGraph := ⟨[]⟩

/-- C7 witness: two distinct valid measure names are instantiated and
keyed by name, by the theorem at that concrete input. -/
theorem node_measures_manager_init_spec_witness :
    ∃ ms, NodeMeasuresManager.init graph₀
        ["Local Degree Centrality", "Global Closeness Centrality"] = .ok ms ∧
      dictKeys ms = ["Local Degree Centrality", "Global Closeness Centrality"] ∧
      ∀ p ∈ ms, p.2.graph = graph₀ ∧
        dictGet? node_measure_classes p.1 = some p.2.kind :=
  (node_measures_manager_init_spec graph₀
    ["Local Degree Centrality", "Global Closeness Centrality"]).2
    (by decide) (by decide)

/- ### C2: build_predicate -/

/-- C2: for a known attribute, build_predicate produces the predicate the
measurement type prescribes: for ordinal attributes, at-or-above lo and
not strictly above hi in the category order; for interval attributes,
membership in the closed range from lo to hi; for nominal attributes,
equality with the given value; for the ID type, equality of the node id;
any other measurement type raises an exception. -/
theorem build_predicate_spec (rp : RawPredicate)
    (attribute_info : List (String × AttrInfo)) (ai : AttrInfo)
    (h : dictGet? attribute_info rp.value.1 = some ai) :
    (∀ lo hi, ai.measurement_type = "O" → rp.value.2 = RawValue.strPair lo hi →
      ∃ p, build_predicate rp attribute_info = .ok p ∧
        ∀ n s, n.attrs rp.value.1 = Value.str s →
          (p n = true ↔
            (ai.categories.indexOf lo ≤ ai.categories.indexOf s ∧
             ¬ ai.categories.indexOf hi < ai.categories.indexOf s))) ∧
    (∀ lo hi, ai.measurement_type = "I" → rp.value.2 = RawValue.intPair lo hi →
      ∃ p, build_predicate rp attribute_info = .ok p ∧
        ∀ n x, n.attrs rp.value.1 = Value.int x →
          (p n = true ↔ (lo ≤ x ∧ x ≤ hi))) ∧
    (∀ v, ai.measurement_type = "N" → rp.value.2 = RawValue.str v →
      ∃ p, build_predicate rp attribute_info = .ok p ∧
        ∀ n s, n.attrs rp.value.1 = Value.str s →
          (p n = true ↔ s = v)) ∧
    (∀ i, ai.measurement_type = "ID" → rp.value.2 = RawValue.int i →
      ∃ p, build_predicate rp attribute_info = .ok p ∧
        ∀ n, (p n = true ↔ n.id = i)) ∧
    (ai.measurement_type ∉ (["O", "I", "N", "ID"] : List String) →
      build_predicate rp attribute_info =
        .error (.unknownMeasurementType ai.measurement_type)) := by
  refine ⟨?_, ?_, ?_, ?_, ?_⟩
  · intro lo hi hmt hval
    refine ⟨fun n => ordinal_attribute_greater_than_equal rp.value.1 lo ai.categories n &&
        !ordinal_attribute_greater_than rp.value.1 hi ai.categories n, ?_, ?_⟩
    · simp only [build_predicate, h, hmt, hval]
      rfl
    · intro n s hs
      simp [ordinal_attribute_greater_than_equal, ordinal_attribute_greater_than, hs]
  · intro lo hi hmt hval
    refine ⟨fun n => interval_attribute_greater_than_equal rp.value.1 lo n &&
        !interval_attribute_greater_than rp.value.1 hi n, ?_, ?_⟩
    · simp only [build_predicate, h, hmt, hval]
      rfl
    · intro n x hx
      simp [interval_attribute_greater_than_equal, interval_attribute_greater_than, hx,
        Int.not_lt]
  · intro v hmt hval
    refine ⟨categorical_attribute_equal rp.value.1 rp.value.2, ?_, ?_⟩
    · simp only [build_predicate, h, hmt]
      rfl
    · intro n s hs
      simp [categorical_attribute_equal, hs, hval]
  · intro i hmt hval
    refine ⟨fun n =>
      match rp.value.2 with
      | .int j => n.id == j
      | _ => false, ?_, ?_⟩
    · simp only [build_predicate, h, hmt]
      rfl
    · intro n
      simp [hval]
  · intro hnot
    simp only [List.mem_cons, List.not_mem_nil, or_false] at hnot
    push_neg at hnot
    simp only [build_predicate, h, hnot.1, hnot.2.1, hnot.2.2.1, hnot.2.2.2]
    simp

/- ### C1: build_clause operator composition -/

/-- The claim's per-operator combination rule: NEW starts the filter with
the predicate, NOT starts it with the negated predicate, AND / OR /
AND NOT / OR NOT combine the accumulated filter with the (possibly
negated) predicate by conjunction or disjunction, anything else raises. -/
def specCombineOp (acc nf : NodeFilter) (op : String) : Except BuildError NodeFilter :=
  if op = "NEW" then .ok nf
  else if op = "NOT" then .ok nf.neg
  else if op = "AND" then .ok (acc.mul nf)
  else if op = "OR" then .ok (acc.add nf)
  else if op = "AND NOT" then .ok (acc.mul nf.neg)
  else if op = "OR NOT" then .ok (acc.add nf.neg)
  else .error (.unknownCombinator op)

/-- The claim's reading of the first processed entry: NEW starts the
filter with the predicate, NOT with the negated predicate. -/
def specStart (p : RawPredicate) (attribute_info : List (String × AttrInfo)) :
    Except BuildError NodeFilter :=
  match build_predicate p attribute_info with
  | .error e => .error e
  | .ok pred =>
    if p.operator = "NEW" then .ok ⟨pred⟩
    else if p.operator = "NOT" then .ok (NodeFilter.neg ⟨pred⟩)
    else .error (.unknownCombinator p.operator)

/-- One later entry of the claim's composition: build the per-entry
predicate and combine it by operator. -/
def specCombine (acc : NodeFilter) (p : RawPredicate)
    (attribute_info : List (String × AttrInfo)) : Except BuildError NodeFilter :=
  match build_predicate p attribute_info with
  | .error e => .error e
  | .ok pred => specCombineOp acc ⟨pred⟩ p.operator

/-- The claim's left-to-right composition of the entries after the first. -/
def specFoldE (attribute_info : List (String × AttrInfo)) :
    NodeFilter → List (Nat × RawPredicate) → Except BuildError NodeFilter
  | acc, [] => .ok acc
  | acc, t :: rest =>
    match specCombine acc t.2 attribute_info with
    | .error e => .error e
    | .ok acc' => specFoldE attribute_info acc' rest

/-- The claim's description of build_clause: process the entries in
ascending numeric key order, start from the lowest-numbered entry and
fold in the rest left to right. -/
def clauseSpec (raw_clause : List (Nat × RawPredicate))
    (attribute_info : List (String × AttrInfo)) :
    Except BuildError (Option NodeFilter) :=
  match pySorted raw_clause with
  | [] => .ok none
  | e :: es =>
    match specStart e.2 attribute_info with
    | .error er => .error er
    | .ok start => Except.map some (specFoldE attribute_info start es)

theorem applyCombinator_some (f nf : NodeFilter) (op : String) :
    applyCombinator (some f) op nf = Except.map some (specCombineOp f nf op) := by
  simp only [applyCombinator, specCombineOp]
  by_cases h1 : op = "NEW"
  · rw [if_pos h1, if_pos h1]
    rfl
  · rw [if_neg h1, if_neg h1]
    by_cases h2 : op = "NOT"
    · rw [if_pos h2, if_pos h2]
      rfl
    · rw [if_neg h2, if_neg h2]
      by_cases h3 : op = "AND"
      · rw [if_pos h3, if_pos h3]
        rfl
      · rw [if_neg h3, if_neg h3]
        by_cases h4 : op = "OR"
        · rw [if_pos h4, if_pos h4]
          rfl
        · rw [if_neg h4, if_neg h4]
          by_cases h5 : op = "AND NOT"
          · rw [if_pos h5, if_pos h5]
            rfl
          · rw [if_neg h5, if_neg h5]
            by_cases h6 : op = "OR NOT"
            · rw [if_pos h6, if_pos h6]
              rfl
            · rw [if_neg h6, if_neg h6]
              rfl

theorem buildFoldE_some_eq (attribute_info : List (String × AttrInfo)) :
    ∀ (es : List (Nat × RawPredicate)) (f : NodeFilter),
      buildFoldE attribute_info (some f) es =
        Except.map some (specFoldE attribute_info f es) := by
  intro es
  induction es with
  | nil =>
    intro f
    rfl
  | cons t rest ih =>
    intro f
    cases hbp : build_predicate t.2 attribute_info with
    | error err =>
      simp only [buildFoldE, specFoldE, specCombine, hbp]
      rfl
    | ok pred =>
      simp only [buildFoldE, specFoldE, specCombine, hbp]
      rw [applyCombinator_some]
      cases hsc : specCombineOp f ⟨pred⟩ t.2.operator with
      | error err => rfl
      | ok acc' => exact ih acc'

/-- C1: on a non-empty clause dictionary whose lowest-numbered entry has
operator NEW or NOT, build_clause processes the entries in ascending
numeric key order and returns the left-to-right composition of the
per-entry predicates under the claimed operator rules (unknown operators
raising an exception), i.e. it agrees with clauseSpec. -/
theorem build_clause_ascending_composition (raw_clause : List (Nat × RawPredicate))
    (attribute_info : List (String × AttrInfo))
    (hne : raw_clause ≠ [])
    (hlow : ∀ e ∈ raw_clause, (∀ e' ∈ raw_clause, e.1 ≤ e'.1) →
      (e.2.operator = "NEW" ∨ e.2.operator = "NOT")) :
    build_clause raw_clause attribute_info = clauseSpec raw_clause attribute_info := by
  cases hs : pySorted raw_clause with
  | nil => exact absurd (pySorted_eq_nil_iff.mp hs) hne
  | cons e es =>
    have he_mem : e ∈ raw_clause := mem_pySorted.mp (hs ▸ List.mem_cons_self e es)
    have hmin : ∀ e' ∈ raw_clause, e.1 ≤ e'.1 := by
      intro e' he'
      have hmem : e' ∈ pySorted raw_clause := mem_pySorted.mpr he'
      rw [hs] at hmem
      rcases List.mem_cons.mp hmem with h | h
      · rw [h]
      · have hp := pySorted_pairwise raw_clause
        rw [hs, List.pairwise_cons] at hp
        exact hp.1 e' h
    have hop := hlow e he_mem hmin
    rw [build_clause, clauseSpec, hs]
    cases hbp : build_predicate e.2 attribute_info with
    | error err =>
      simp only [buildFoldE, specStart, hbp]
    | ok pred =>
      rcases hop with hop | hop
      · have happ : applyCombinator none e.2.operator ⟨pred⟩ =
            .ok (some (⟨pred⟩ : NodeFilter)) := by
          simp only [applyCombinator]
          rw [if_pos hop]
        have hst : specStart e.2 attribute_info = .ok (⟨pred⟩ : NodeFilter) := by
          simp only [specStart, hbp]
          rw [if_pos hop]
        simp only [buildFoldE, hbp, happ, hst]
        exact buildFoldE_some_eq attribute_info es ⟨pred⟩
      · have hnew : ¬ e.2.operator = "NEW" := by
          rw [hop]
          decide
        have happ : applyCombinator none e.2.operator ⟨pred⟩ =
            .ok (some (NodeFilter.neg ⟨pred⟩)) := by
          simp only [applyCombinator]
          rw [if_neg hnew, if_pos hop]
        have hst : specStart e.2 attribute_info = .ok (NodeFilter.neg ⟨pred⟩) := by
          simp only [specStart, hbp]
          rw [if_neg hnew, if_pos hop]
        simp only [buildFoldE, hbp, happ, hst]
        exact buildFoldE_some_eq attribute_info es (NodeFilter.neg ⟨pred⟩)

/-- A concrete raw predicate for witnesses: NEW on a nominal attribute. -/
def rp₀ : RawPredicate := { operator := "NEW", value := ("class", RawValue.str "2BIO1") }

/-- A concrete second raw predicate for witnesses: OR NOT on the same
attribute. -/
def rp₁ : RawPredicate := { operator := "OR NOT", value := ("class", RawValue.str "MP") }

/-- A concrete attribute_info for witnesses: a single nominal attribute. -/
def attrInfo₀ : List (String × AttrInfo) :=
  [("class", { measurement_type := "N", categories := [] })]

/-- C1 witness: on a concrete two-entry clause dict with operators NEW and
OR NOT, build_clause is the claimed composition, by the theorem with its
hypotheses discharged by computation. -/
theorem build_clause_ascending_composition_witness :
    build_clause [(2, rp₁), (1, rp₀)] attrInfo₀ =
      clauseSpec [(2, rp₁), (1, rp₀)] attrInfo₀ :=
  build_clause_ascending_composition [(2, rp₁), (1, rp₀)] attrInfo₀
    (by decide) (by decide)

/- ### C4: transform_queries_to_filter -/

/-- The claim's reading of the first loop: each query contributes its
clause filter, in the given (ascending, once sorted) order. -/
def specClauseFilters (attribute_info : List (String × AttrInfo)) :
    List (Nat × Query) → Except BuildError (List NodeFilter)
  | [] => .ok []
  | t :: rest =>
    match build_clause t.2.clauses attribute_info with
    | .ok (some f) =>
      match specClauseFilters attribute_info rest with
      | .ok fs => .ok (f :: fs)
      | .error e => .error e
    | .ok none => .error .typeError
    | .error e => .error e

/-- The claim's description of transform_queries_to_filter: the filter sum
(disjunction) of the clause filters in ascending query-id order, and an
accept-everything filter for the empty dict. -/
def filterSumSpec (queries : List (Nat × Query))
    (attribute_info : List (String × AttrInfo)) : Except BuildError NodeFilter :=
  match specClauseFilters attribute_info (pySorted queries) with
  | .error e => .error e
  | .ok [] => .ok trueNodeFilter
  | .ok (f :: fs) => .ok (fs.foldl NodeFilter.add f)

theorem buildClausesE_somes (attribute_info : List (String × AttrInfo)) :
    ∀ (l : List (Nat × Query)),
      (∀ q ∈ l, ∃ f, build_clause q.2.clauses attribute_info = .ok (some f)) →
      ∃ fs, buildClausesE attribute_info l = .ok (fs.map some) ∧
        specClauseFilters attribute_info l = .ok fs := by
  intro l
  induction l with
  | nil =>
    intro _
    exact ⟨[], rfl, rfl⟩
  | cons t rest ih =>
    intro h
    obtain ⟨f, hf⟩ := h t (List.mem_cons_self _ _)
    obtain ⟨fs, h1, h2⟩ := ih (fun q hq => h q (List.mem_cons_of_mem _ hq))
    refine ⟨f :: fs, ?_, ?_⟩
    · simp only [buildClausesE, hf, h1]
      rfl
    · simp only [specClauseFilters, hf, h2]

theorem sumClauses_somes :
    ∀ (fs : List NodeFilter) (f : NodeFilter),
      sumClauses (some f) (fs.map some) = .ok (some (fs.foldl NodeFilter.add f)) := by
  intro fs
  induction fs with
  | nil =>
    intro f
    rfl
  | cons b rest ih =>
    intro f
    simp only [List.map_cons, sumClauses, List.foldl_cons]
    exact ih (f.add b)

/-- C4: when every active query has a clause filter,
transform_queries_to_filter is the filter sum of those filters in
ascending query-id order; on the empty dict it is the accept-everything
filter, so get_node_filter with no active filter query filters out no
node. -/
theorem transform_queries_disjunction (queries : List (Nat × Query))
    (attribute_info : List (String × AttrInfo))
    (hok : ∀ q ∈ queries, ∃ f, build_clause q.2.clauses attribute_info = .ok (some f)) :
    transform_queries_to_filter queries attribute_info =
      filterSumSpec queries attribute_info ∧
    transform_queries_to_filter [] attribute_info = .ok trueNodeFilter ∧
    (∀ (filter_queries : List (Nat × Query)),
      get_node_filter filter_queries [] attribute_info = .ok trueNodeFilter) ∧
    (∀ nodes, trueNodeFilter.apply nodes = nodes) := by
  refine ⟨?_, rfl, ?_, ?_⟩
  · have hok' : ∀ q ∈ pySorted queries, ∃ f,
        build_clause q.2.clauses attribute_info = .ok (some f) :=
      fun q hq => hok q (mem_pySorted.mp hq)
    obtain ⟨fs, h1, h2⟩ := buildClausesE_somes attribute_info (pySorted queries) hok'
    rw [transform_queries_to_filter, filterSumSpec, h1, h2]
    cases fs with
    | nil => rfl
    | cons f fs' =>
      simp only [List.map_cons]
      rw [sumClauses_somes fs' f]
  · intro fq
    rw [get_node_filter]
    have hfil : fq.filter (fun t => ([] : List Nat).contains t.1) = [] := by
      rw [List.filter_eq_nil_iff]
      intro a _
      simp
    rw [hfil]
    rfl
  · intro nodes
    rw [NodeFilter.apply, trueNodeFilter]
    exact List.filter_true nodes

/-- A concrete query for witnesses: color plus the single clause rp₀. -/
def query₀ : Query := { color := "#ff0000", clauses := [(1, rp₀)] }

/-- C4 witness: on a concrete one-query dict over a nominal attribute the
theorem applies, with its clause-filter hypothesis discharged by
computation. -/
theorem transform_queries_disjunction_witness :
    transform_queries_to_filter [(1, query₀)] attrInfo₀ =
      filterSumSpec [(1, query₀)] attrInfo₀ ∧
    transform_queries_to_filter [] attrInfo₀ = .ok trueNodeFilter ∧
    (∀ (filter_queries : List (Nat × Query)),
      get_node_filter filter_queries [] attrInfo₀ = .ok trueNodeFilter) ∧
    (∀ nodes, trueNodeFilter.apply nodes = nodes) :=
  transform_queries_disjunction [(1, query₀)] attrInfo₀
    (by
      intro q hq
      rw [List.mem_singleton] at hq
      subst hq
      exact ⟨⟨categorical_attribute_equal "class" (RawValue.str "2BIO1")⟩, rfl⟩)

/- ### C8: transform_queries_to_color_mapping -/

/-- Whether a query's clause filter selects a node (false when the clause
dict is empty or raises). -/
def matchB (attribute_info : List (String × AttrInfo)) (q : Query)
    (n : TemporalNode) : Bool :=
  match build_clause q.clauses attribute_info with
  | .ok (some f) => f.pred n
  | _ => false

theorem dictGet?_color_foldl (c : String) :
    ∀ (nodes : List TemporalNode) (d : List (Int × String)) (k : Int),
      dictGet? (nodes.foldl (fun d n => dictSet d n.id c) d) k =
        if k ∈ nodes.map (fun n => n.id) then some c else dictGet? d k := by
  intro nodes
  induction nodes with
  | nil =>
    intro d k
    simp
  | cons n ns ih =>
    intro d k
    simp only [List.foldl_cons, List.map_cons, List.mem_cons]
    rw [ih]
    by_cases hk : k ∈ ns.map (fun n => n.id)
    · rw [if_pos hk, if_pos (Or.inr hk)]
    · rw [if_neg hk]
      by_cases he : k = n.id
      · rw [if_pos (Or.inl he), he, dictGet?_dictSet_self]
      · rw [if_neg (by tauto), dictGet?_dictSet_ne _ _ he]

theorem dictKeys_color_foldl_fresh (c : String) :
    ∀ (nodes : List TemporalNode) (d : List (Int × String)),
      (nodes.map (fun n => n.id)).Nodup →
      (∀ i ∈ nodes.map (fun n => n.id), i ∉ dictKeys d) →
      dictKeys (nodes.foldl (fun d n => dictSet d n.id c) d) =
        dictKeys d ++ nodes.map (fun n => n.id) := by
  intro nodes
  induction nodes with
  | nil =>
    intro d _ _
    simp
  | cons n ns ih =>
    intro d hnd hfresh
    simp only [List.map_cons, List.nodup_cons] at hnd
    simp only [List.foldl_cons, List.map_cons]
    have hn_not : n.id ∉ dictKeys d := hfresh n.id (by simp)
    have hkeys : dictKeys (dictSet d n.id c) = dictKeys d ++ [n.id] := by
      rw [dictKeys_dictSet, if_neg hn_not]
    have hfresh' : ∀ i ∈ ns.map (fun n => n.id), i ∉ dictKeys (dictSet d n.id c) := by
      intro i hi
      rw [hkeys, List.mem_append]
      push_neg
      refine ⟨hfresh i (by simp [hi]), ?_⟩
      intro hmem
      rw [List.mem_singleton] at hmem
      exact hnd.1 (hmem ▸ hi)
    rw [ih (dictSet d n.id c) hnd.2 hfresh', hkeys, List.append_assoc]
    rfl

theorem dictKeys_color_foldl_mem (c : String) :
    ∀ (nodes : List TemporalNode) (d : List (Int × String)),
      (∀ n ∈ nodes, n.id ∈ dictKeys d) →
      dictKeys (nodes.foldl (fun d n => dictSet d n.id c) d) = dictKeys d := by
  intro nodes
  induction nodes with
  | nil =>
    intro d _
    rfl
  | cons n ns ih =>
    intro d hmem
    simp only [List.foldl_cons]
    have h1 : dictKeys (dictSet d n.id c) = dictKeys d := by
      rw [dictKeys_dictSet, if_pos (hmem n (List.mem_cons_self _ _))]
    rw [ih _ (fun m hm => by rw [h1]; exact hmem m (List.mem_cons_of_mem _ hm)), h1]

/-- The pure effect of the per-query recoloring loop once every clause
filter exists. -/
def colorFoldPure (attribute_info : List (String × AttrInfo))
    (g_nodes : List TemporalNode) :
    List (Int × String) → List (Nat × Query) → List (Int × String)
  | colors, [] => colors
  | colors, t :: rest =>
    colorFoldPure attribute_info g_nodes
      ((g_nodes.filter (fun n => matchB attribute_info t.2 n)).foldl
        (fun d n => dictSet d n.id t.2.color) colors) rest

theorem colorFoldE_eq_pure (attribute_info : List (String × AttrInfo))
    (g_nodes : List TemporalNode) :
    ∀ (l : List (Nat × Query)) (d : List (Int × String)),
      (∀ q ∈ l, ∃ f, build_clause q.2.clauses attribute_info = .ok (some f)) →
      colorFoldE attribute_info g_nodes d l =
        .ok (colorFoldPure attribute_info g_nodes d l) := by
  intro l
  induction l with
  | nil =>
    intro d _
    rfl
  | cons t rest ih =>
    intro d h
    obtain ⟨f, hf⟩ := h t (List.mem_cons_self _ _)
    have hpred : (fun n => matchB attribute_info t.2 n) = f.pred := by
      funext n
      rw [matchB, hf]
    simp only [colorFoldE, hf, colorFoldPure, hpred, NodeFilter.apply]
    exact ih _ (fun q hq => h q (List.mem_cons_of_mem _ hq))

theorem dictKeys_colorFoldPure (attribute_info : List (String × AttrInfo))
    (g_nodes : List TemporalNode) :
    ∀ (l : List (Nat × Query)) (d : List (Int × String)),
      (∀ n ∈ g_nodes, n.id ∈ dictKeys d) →
      dictKeys (colorFoldPure attribute_info g_nodes d l) = dictKeys d := by
  intro l
  induction l with
  | nil =>
    intro d _
    rfl
  | cons t rest ih =>
    intro d hmem
    simp only [colorFoldPure]
    have h1 : dictKeys ((g_nodes.filter (fun n => matchB attribute_info t.2 n)).foldl
        (fun d n => dictSet d n.id t.2.color) d) = dictKeys d :=
      dictKeys_color_foldl_mem _ _ d
        (fun m hm => hmem m (List.mem_filter.mp hm).1)
    rw [ih _ (fun m hm => by rw [h1]; exact hmem m hm), h1]

/-- The last entry of a list satisfying a predicate (the survivor of
last-write-wins overwriting along the list). -/
def lastMatch {α : Type} (p : α → Bool) : List α → Option α
  | [] => none
  | t :: rest =>
    match lastMatch p rest with
    | some t' => some t'
    | none => if p t then some t else none

theorem lastMatch_append {α : Type} (p : α → Bool) :
    ∀ (xs ys : List α), lastMatch p (xs ++ ys) =
      match lastMatch p ys with
      | some t => some t
      | none => lastMatch p xs := by
  intro xs ys
  induction xs with
  | nil =>
    simp only [List.nil_append]
    cases lastMatch p ys <;> rfl
  | cons x xs ih =>
    simp only [List.cons_append, lastMatch]
    rw [List.append_eq, ih]
    cases lastMatch p ys <;> cases lastMatch p xs <;> rfl

theorem lastMatch_reverse {α : Type} (p : α → Bool) :
    ∀ (l : List α), lastMatch p l.reverse = l.find? p := by
  intro l
  induction l with
  | nil => rfl
  | cons t rest ih =>
    rw [List.reverse_cons, lastMatch_append]
    have h1 : lastMatch p [t] = if p t then some t else none := rfl
    rw [h1]
    by_cases hp : p t
    · rw [if_pos hp, List.find?_cons_of_pos _ hp]
    · rw [if_neg hp, List.find?_cons_of_neg _ hp, ← ih]

theorem dictGet?_colorFoldPure (attribute_info : List (String × AttrInfo))
    (g_nodes : List TemporalNode) (k : Int) :
    ∀ (l : List (Nat × Query)) (d : List (Int × String)),
      dictGet? (colorFoldPure attribute_info g_nodes d l) k =
        match lastMatch (fun t => decide (k ∈ (g_nodes.filter
            (fun n => matchB attribute_info t.2 n)).map (fun n => n.id))) l with
        | some t => some t.2.color
        | none => dictGet? d k := by
  intro l
  induction l with
  | nil =>
    intro d
    rfl
  | cons t rest ih =>
    intro d
    simp only [colorFoldPure, lastMatch]
    rw [ih]
    cases lastMatch (fun t => decide (k ∈ (g_nodes.filter
        (fun n => matchB attribute_info t.2 n)).map (fun n => n.id))) rest with
    | some t' => rfl
    | none =>
      rw [dictGet?_color_foldl]
      by_cases hk : k ∈ (g_nodes.filter
          (fun n => matchB attribute_info t.2 n)).map (fun n => n.id)
      · rw [if_pos hk, if_pos (decide_eq_true hk)]
      · rw [if_neg hk, if_neg (by simpa using hk)]

theorem find?_sorted_minimal {α : Type} (p : (Nat × α) → Bool) :
    ∀ {l : List (Nat × α)}, l.Pairwise (fun a b => a.1 ≤ b.1) →
      ∀ {q}, l.find? p = some q →
        q ∈ l ∧ p q = true ∧ ∀ q' ∈ l, p q' = true → q.1 ≤ q'.1 := by
  intro l
  induction l with
  | nil =>
    intro _ q h
    simp at h
  | cons a rest ih =>
    intro hp q hf
    rw [List.pairwise_cons] at hp
    by_cases hpa : p a
    · rw [List.find?_cons_of_pos _ hpa] at hf
      simp at hf
      subst hf
      refine ⟨List.mem_cons_self _ _, hpa, ?_⟩
      intro q' hq' _
      rcases List.mem_cons.mp hq' with h | h
      · rw [h]
      · exact hp.1 q' h
    · rw [List.find?_cons_of_neg _ hpa] at hf
      obtain ⟨hmem, hpq, hmin⟩ := ih hp.2 hf
      refine ⟨List.mem_cons_of_mem _ hmem, hpq, ?_⟩
      intro q' hq' hpq'
      rcases List.mem_cons.mp hq' with h | h
      · exact absurd (h ▸ hpq') hpa
      · exact hmin q' h hpq'

theorem nodup_map_inj {α β : Type} {f : α → β} {l : List α}
    (h : (l.map f).Nodup) {a b : α} (ha : a ∈ l) (hb : b ∈ l)
    (hf : f a = f b) : a = b := by
  induction l with
  | nil => simp at ha
  | cons x xs ih =>
    rw [List.map_cons, List.nodup_cons] at h
    rcases List.mem_cons.mp ha with ha' | ha' <;> rcases List.mem_cons.mp hb with hb' | hb'
    · rw [ha', hb']
    · exfalso
      apply h.1
      rw [← ha', hf]
      exact List.mem_map_of_mem f hb'
    · exfalso
      apply h.1
      rw [← hb', ← hf]
      exact List.mem_map_of_mem f ha'
    · exact ih h.2 ha' hb'

theorem mem_filtered_ids_iff {g_nodes : List TemporalNode}
    (hids : (g_nodes.map (fun n => n.id)).Nodup) (pr : TemporalNode → Bool)
    {n : TemporalNode} (hn : n ∈ g_nodes) :
    (n.id ∈ (g_nodes.filter pr).map (fun n => n.id)) ↔ pr n = true := by
  constructor
  · intro h
    rw [List.mem_map] at h
    obtain ⟨m, hm, hid⟩ := h
    rw [List.mem_filter] at hm
    have hmn : m = n := nodup_map_inj hids hm.1 hn hid
    exact hmn ▸ hm.2
  · intro h
    exact List.mem_map_of_mem _ (List.mem_filter.mpr ⟨hn, h⟩)

/-- C8: the color mapping's keys are exactly the node ids of the temporal
graph; a node matched by no active query keeps the default color, and a
node matched by several queries gets the color of the matching query with
the smallest (oldest) id: the queries are applied in descending id order,
so later (smaller-id) writes overwrite earlier ones. -/
theorem color_mapping_spec (queries : List (Nat × Query))
    (attribute_info : List (String × AttrInfo)) (g : TemporalGraph)
    (default_color : String)
    (hkeys : (dictKeys queries).Nodup)
    (hids : (g.nodes.map (fun n => n.id)).Nodup)
    (hok : ∀ q ∈ queries, ∃ f, build_clause q.2.clauses attribute_info = .ok (some f)) :
    ∃ colors, transform_queries_to_color_mapping queries attribute_info g
        default_color = .ok colors ∧
      dictKeys colors = g.nodes.map (fun n => n.id) ∧
      ∀ n ∈ g.nodes,
        ((∀ q ∈ queries, matchB attribute_info q.2 n = false) →
          dictGet? colors n.id = some default_color) ∧
        (∀ qm ∈ queries, matchB attribute_info qm.2 n = true →
          (∀ q' ∈ queries, matchB attribute_info q'.2 n = true → qm.1 ≤ q'.1) →
          dictGet? colors n.id = some qm.2.color) := by
  have hokL : ∀ q ∈ (pySorted queries).reverse, ∃ f,
      build_clause q.2.clauses attribute_info = .ok (some f) := by
    intro q hq
    rw [List.mem_reverse] at hq
    exact hok q (mem_pySorted.mp hq)
  have hE := colorFoldE_eq_pure attribute_info g.nodes (pySorted queries).reverse
    (g.nodes.foldl (fun d n => dictSet d n.id default_color) []) hokL
  have hinit_keys : dictKeys (g.nodes.foldl
      (fun d n => dictSet d n.id default_color) []) = g.nodes.map (fun n => n.id) := by
    have h := dictKeys_color_foldl_fresh default_color g.nodes [] hids
      (by intro i _ hmem; simp [dictKeys] at hmem)
    simpa using h
  have hmem0 : ∀ n ∈ g.nodes, n.id ∈ dictKeys (g.nodes.foldl
      (fun d n => dictSet d n.id default_color) []) := by
    intro n hn
    rw [hinit_keys]
    exact List.mem_map_of_mem _ hn
  refine ⟨_, hE, ?_, ?_⟩
  · rw [dictKeys_colorFoldPure attribute_info g.nodes _ _ hmem0, hinit_keys]
  · intro n hn
    have hget := dictGet?_colorFoldPure attribute_info g.nodes n.id
      (pySorted queries).reverse
      (g.nodes.foldl (fun d n => dictSet d n.id default_color) [])
    rw [lastMatch_reverse] at hget
    have hp_iff : ∀ t : Nat × Query,
        ((fun t : Nat × Query => decide (n.id ∈ (g.nodes.filter
          (fun m => matchB attribute_info t.2 m)).map (fun m => m.id))) t = true) ↔
        matchB attribute_info t.2 n = true := by
      intro t
      simp only [decide_eq_true_eq]
      exact mem_filtered_ids_iff hids _ hn
    constructor
    · intro hnone
      have hfind : (pySorted queries).find? (fun t : Nat × Query =>
          decide (n.id ∈ (g.nodes.filter (fun m => matchB attribute_info t.2 m)).map
            (fun m => m.id))) = none := by
        rw [List.find?_eq_none]
        intro x hx hpx
        have hm := (hp_iff x).mp hpx
        rw [hnone x (mem_pySorted.mp hx)] at hm
        cases hm
      rw [hfind] at hget
      rw [hget, dictGet?_color_foldl, if_pos (List.mem_map_of_mem _ hn)]
    · intro qm hqm hmatch hminimal
      cases hfind : (pySorted queries).find? (fun t : Nat × Query =>
          decide (n.id ∈ (g.nodes.filter (fun m => matchB attribute_info t.2 m)).map
            (fun m => m.id))) with
      | none =>
        exfalso
        rw [List.find?_eq_none] at hfind
        exact hfind qm (mem_pySorted.mpr hqm) ((hp_iff qm).mpr hmatch)
      | some q =>
        obtain ⟨hqmem, hpq, hqmin⟩ :=
          find?_sorted_minimal _ (pySorted_pairwise queries) hfind
        have hq_queries : q ∈ queries := mem_pySorted.mp hqmem
        have hq_match : matchB attribute_info q.2 n = true := (hp_iff q).mp hpq
        have h1 : qm.1 ≤ q.1 := hminimal q hq_queries hq_match
        have h2 : q.1 ≤ qm.1 := hqmin qm (mem_pySorted.mpr hqm) ((hp_iff qm).mpr hmatch)
        have hkey : q.1 = qm.1 := Nat.le_antisymm h2 h1
        have hm1 : (qm.1, q.2) ∈ queries := by
          rw [← hkey]
          exact hq_queries
        have hm2 : (qm.1, qm.2) ∈ queries := hqm
        have hval : q.2 = qm.2 := nodup_val_eq hkeys hm1 hm2
        rw [hfind] at hget
        rw [hget]
        show some q.2.color = some qm.2.color
        rw [hval]

/-- A concrete node and one-node graph for the color-mapping witness. -/
def node₀ : TemporalNode := { id := 954, attrs := fun _ => Value.str "2BIO1" }

/-- A concrete one-node temporal graph for witnesses. -/
def graph₁ : TemporalGraph := ⟨[node₀]⟩

/-- C8 witness: the theorem applied to a concrete one-query, one-node
instance, every hypothesis discharged by computation. -/
theorem color_mapping_spec_witness :
    ∃ colors, transform_queries_to_color_mapping [(1, query₀)] attrInfo₀ graph₁
        "gray" = .ok colors ∧
      dictKeys colors = graph₁.nodes.map (fun n => n.id) ∧
      ∀ n ∈ graph₁.nodes,
        ((∀ q ∈ [(1, query₀)], matchB attrInfo₀ q.2 n = false) →
          dictGet? colors n.id = some "gray") ∧
        (∀ qm ∈ [(1, query₀)], matchB attrInfo₀ qm.2 n = true →
          (∀ q' ∈ [(1, query₀)], matchB attrInfo₀ q'.2 n = true → qm.1 ≤ q'.1) →
          dictGet? colors n.id = some qm.2.color) :=
  color_mapping_spec [(1, query₀)] attrInfo₀ graph₁ "gray"
    (by decide) (by decide)
    (by
      intro q hq
      rw [List.mem_singleton] at hq
      subst hq
      exact ⟨⟨categorical_attribute_equal "class" (RawValue.str "2BIO1")⟩, rfl⟩)

/- ### C9: query-manager invariant -/

theorem qInv_dictSet {queries : List (Nat × Query)} {qid : Nat} {q' : Query}
    (hnd : (dictKeys queries).Nodup) (hall : ∀ p ∈ queries, QueryWF p.2)
    (hwf : QueryWF q') :
    (dictKeys (dictSet queries qid q')).Nodup ∧
      ∀ p ∈ dictSet queries qid q', QueryWF p.2 := by
  refine ⟨nodup_dictKeys_dictSet qid q' hnd, ?_⟩
  intro p hp
  rcases mem_dictSet_elim hp with h | h
  · rw [h]
    exact hwf
  · exact hall p h

theorem qInv_dictPop {queries : List (Nat × Query)} {qid : Nat}
    (hnd : (dictKeys queries).Nodup) (hall : ∀ p ∈ queries, QueryWF p.2) :
    (dictKeys (dictPop queries qid)).Nodup ∧
      ∀ p ∈ dictPop queries qid, QueryWF p.2 := by
  constructor
  · exact List.Nodup.sublist ((dictPop_sublist _ _).map Prod.fst) hnd
  · intro p hp
    exact hall p (mem_of_mem_dictPop hp)

theorem queryWF_singleton (op attr_name : String) (v : RawValue) (color : String)
    (hop : op = "NEW" ∨ op = "NOT") :
    QueryWF { color := color,
              clauses := [(1, { operator := op, value := (attr_name, v) })] } := by
  refine ⟨by simp, by simp [dictKeys], ?_⟩
  exact ⟨(1, { operator := op, value := (attr_name, v) }), rfl, hop⟩

theorem queryWF_append_clause {q : Query} (hwf : QueryWF q) (c : RawPredicate) :
    QueryWF { q with clauses := dictSet q.clauses (maxKey q.clauses + 1) c } := by
  obtain ⟨hne, hnd, e, hmin, hop⟩ := hwf
  have hfresh : maxKey q.clauses + 1 ∉ dictKeys q.clauses := by
    intro hmem
    rw [dictKeys, List.mem_map] at hmem
    obtain ⟨p, hp, hp1⟩ := hmem
    have := maxKey_ge hp
    omega
  have happ : dictSet q.clauses (maxKey q.clauses + 1) c =
      q.clauses ++ [(maxKey q.clauses + 1, c)] := dictSet_eq_append c hfresh
  have hnd2 : (dictKeys (dictSet q.clauses (maxKey q.clauses + 1) c)).Nodup :=
    nodup_dictKeys_dictSet _ _ hnd
  refine ⟨dictSet_ne_nil _ _ _, hnd2, e, ?_, hop⟩
  apply minEntry_eq_of hnd2
  · rw [happ]
    exact List.mem_append_left _ (minEntry_mem hmin)
  · intro p hp
    rw [happ] at hp
    rcases List.mem_append.mp hp with h | h
    · exact minEntry_le hmin p h
    · rw [List.mem_singleton] at h
      have he_mem := minEntry_mem hmin
      have h1 := maxKey_ge he_mem
      rw [h]
      omega

theorem queryWF_reinit {remaining : List (Nat × RawPredicate)} {e : Nat × RawPredicate}
    (hnd : (dictKeys remaining).Nodup) (hmin : minEntry remaining = some e)
    (color : String) {new_op : String} (hop : new_op = "NEW" ∨ new_op = "NOT") :
    QueryWF { color := color,
              clauses := dictSet remaining e.1 { e.2 with operator := new_op } } := by
  refine ⟨dictSet_ne_nil _ _ _, nodup_dictKeys_dictSet _ _ hnd,
    (e.1, { e.2 with operator := new_op }), ?_, hop⟩
  apply minEntry_eq_of (nodup_dictKeys_dictSet _ _ hnd) (dictSet_self_mem _ _ _)
  intro p hp
  rcases mem_dictSet_elim hp with h | h
  · subst h
    exact Nat.le_refl _
  · exact minEntry_le hmin p h

theorem queryWF_pop_noninit {q : Query} (hwf : QueryWF q) {cid : Nat}
    {clause : RawPredicate} (hgetc : dictGet? q.clauses cid = some clause)
    (hnew : clause.operator ≠ "NEW") (hnot : clause.operator ≠ "NOT")
    (hrem : dictPop q.clauses cid ≠ []) :
    QueryWF { q with clauses := dictPop q.clauses cid } := by
  obtain ⟨hne, hnd, e, hmin, hop⟩ := hwf
  have hnd' : (dictKeys (dictPop q.clauses cid)).Nodup :=
    List.Nodup.sublist ((dictPop_sublist _ _).map Prod.fst) hnd
  have hcid_ne : cid ≠ e.1 := by
    intro hh
    have hc_mem : (cid, clause) ∈ q.clauses := dictGet?_some_mem hgetc
    have he_mem' : (cid, e.2) ∈ q.clauses := by
      rw [hh]
      exact minEntry_mem hmin
    have hce : clause = e.2 := nodup_val_eq hnd hc_mem he_mem'
    rcases hop with h | h
    · exact hnew (by rw [hce, h])
    · exact hnot (by rw [hce, h])
  have he_rem : e ∈ dictPop q.clauses cid :=
    mem_dictPop_of_ne (minEntry_mem hmin) (fun hh => hcid_ne hh.symm)
  refine ⟨hrem, hnd', e, ?_, hop⟩
  apply minEntry_eq_of hnd' he_rem
  intro p hp
  exact minEntry_le hmin p (mem_of_mem_dictPop hp)

theorem inv_add_query {s : QMState} (inv : QMInv s) (negated : Bool)
    (color attr_name : String) (v : RawValue) :
    QMInv (add_query negated color attr_name v s) := by
  obtain ⟨hnd, hall⟩ := inv
  exact qInv_dictSet hnd hall
    (queryWF_singleton _ attr_name v color (by cases negated <;> simp))

theorem inv_add_clause {s s' : QMState} (inv : QMInv s) {qid : Nat}
    {op attr_name : String} {v : RawValue}
    (heq : add_query_clause qid op attr_name v s = some s') : QMInv s' := by
  obtain ⟨hnd, hall⟩ := inv
  unfold add_query_clause at heq
  split at heq
  · exact Option.noConfusion heq
  · rename_i q hget
    injection heq with heq
    subst heq
    exact qInv_dictSet hnd hall
      (queryWF_append_clause (hall (qid, q) (dictGet?_some_mem hget)) _)

theorem inv_delete_clause {s s' : QMState} (inv : QMInv s) {qid cid : Nat}
    (heq : delete_query_clause qid cid s = some s') : QMInv s' := by
  obtain ⟨hnd, hall⟩ := inv
  unfold delete_query_clause at heq
  split at heq
  · exact Option.noConfusion heq
  · rename_i q hget
    split at heq
    · exact Option.noConfusion heq
    · rename_i clause hgetc
      have hwf : QueryWF q := hall (qid, q) (dictGet?_some_mem hget)
      dsimp only at heq
      split at heq
      · rename_i hempty
        injection heq with heq
        subst heq
        exact qInv_dictPop hnd hall
      · rename_i hnempty
        split at heq
        · rename_i hinit
          split at heq
          · exact Option.noConfusion heq
          · rename_i e hmin
            injection heq with heq
            subst heq
            refine qInv_dictSet hnd hall ?_
            have hnd_rem : (dictKeys (dictPop q.clauses cid)).Nodup :=
              List.Nodup.sublist ((dictPop_sublist _ _).map Prod.fst) hwf.2.1
            exact queryWF_reinit hnd_rem hmin q.color
              (by by_cases h : strContainsNOT e.2.operator <;> simp [h])
        · rename_i hninit
          injection heq with heq
          subst heq
          refine qInv_dictSet hnd hall ?_
          have hb : ¬(clause.operator == "NEW" || clause.operator == "NOT") = true :=
            hninit
          simp only [Bool.or_eq_true, beq_iff_eq] at hb
          push_neg at hb
          exact queryWF_pop_noninit hwf hgetc hb.1 hb.2
            (fun hh => hnempty (by rw [hh]; rfl))

theorem inv_delete_query {s s' : QMState} (inv : QMInv s) {qid : Nat}
    (heq : delete_query qid s = some s') : QMInv s' := by
  obtain ⟨hnd, hall⟩ := inv
  unfold delete_query at heq
  split at heq
  · exact Option.noConfusion heq
  · injection heq with heq
    subst heq
    exact qInv_dictPop hnd hall

theorem inv_reset {s : QMState} (_ : QMInv s) : QMInv (reset_queries s) :=
  ⟨List.nodup_nil, fun p hp => absurd hp (List.not_mem_nil p)⟩

/-- C9: in every state reachable through the query-manager handlers, every
stored query has a non-empty clause dict with distinct keys whose
lowest-numbered clause has operator NEW or NOT: new queries start with a
single such clause, new clauses go in above the existing maximal index,
deleting the initial clause rewrites the new lowest clause's operator to
NOT or NEW, and deleting a query's last clause removes the query. -/
theorem queries_invariant (s : QMState) (h : QMReachable s) : QMInv s := by
  induction h with
  | init => exact ⟨List.nodup_nil, fun p hp => absurd hp (List.not_mem_nil p)⟩
  | add_query negated color attr_name v _ ih =>
    exact inv_add_query ih negated color attr_name v
  | add_clause query_id op attr_name v _ heq ih => exact inv_add_clause ih heq
  | delete_clause query_id clause_id _ heq ih => exact inv_delete_clause ih heq
  | delete_query query_id _ heq ih => exact inv_delete_query ih heq
  | reset _ ih => exact inv_reset ih

/-- C9 witness: the invariant holds in the concrete state reached by
adding one (non-negated) query to the initial state, via the reachability
theorem. -/
theorem queries_invariant_witness :
    QMInv (add_query false "#ff0000" "class" (RawValue.str "2BIO1") initialQMState) :=
  queries_invariant _
    (QMReachable.add_query false "#ff0000" "class" (RawValue.str "2BIO1")
      QMReachable.init)

/-- C2 witness: the nominal conjunct of the theorem at a concrete
predicate and attribute table, hypotheses discharged by computation. -/
theorem build_predicate_spec_witness :
    ∃ p, build_predicate rp₀ attrInfo₀ = .ok p ∧
      ∀ n s, n.attrs rp₀.value.1 = Value.str s → (p n = true ↔ s = "2BIO1") :=
  (build_predicate_spec rp₀ attrInfo₀
    { measurement_type := "N", categories := [] } rfl).2.2.1 "2BIO1" rfl rfl
